import Mathlib

/-!
# easyrcv round-based tabulation engine: a shallow embedding

This file embeds the core tabulation engine of the easyrcv repository
(`src/easyrcv/tabulate.py` and `src/easyrcv/config.py`) in Lean 4 and proves
properties of that embedding.

The development is split in two layers, because the source itself is:

1. *The numeric-model plumbing is broken and crashes.*  `TabulatorRules`
   defines `T` twice; the later `functools.cached_property T`
   (config.py line 253) shadows the earlier `@property T` and its body
   `return arithmetic.type` evaluates the unbound name `arithmetic`, so
   every access raises `NameError`.  `Tabulator.tabulate` reads
   `self.rules.T` as its very first statement (tabulate.py line 136) and
   therefore raises on every input, before the round loop.  Independently,
   `DecimalArithmetic.div` (the target of `TabulatorRules.threshold`) has
   no `return` statement and evaluates the nonexistent attribute
   `self.Context`, so no threshold computation can yield a value.  These
   exception paths are embedded faithfully with `Except` (`PyExc`,
   `TabulatorRules.T`, `DecimalArithmetic.div`, `TabulatorRules.threshold`,
   `Tabulator.tabulate` below).
2. *The round engine downstream of the crash.*  The per-round logic
   (settling, tallying, winner/loser selection, surplus scaling,
   transfers) is embedded as total functions on `ℚ`
   (`tabulateRound`/`tabulateSteps`), with the quotient the threshold code
   *attempts* embedded as `thresholdCalc`/`tabulateInit`.  Claims about
   the round mechanics are stated against this layer; claims about the
   numeric pipeline itself are stated against the exception layer.

Modelling conventions:
* Ballot records are lists of rank-entry strings (the row of the CVR table
  restricted to the rank columns); the sentinels `"undervote"`, `"overvote"`
  and `"exhausted"` are the literal strings used by the Python code.
* Vote weights use `ℚ` (the `fractions.Fraction` numeric model the config
  selects with `decimal_places_for_vote_arithmetic = -1`), so `div` in the
  round-engine layer is exact division on `ℚ`.
* pandas `groupby` produces its keys in ascending key order, and
  `sort_values` orders a series by value; both are modelled with the stable
  `List.insertionSort` (ties keep the previous order of the index).  String
  order is modelled by `strLe`, lexicographic comparison of code points.
* The pandas boolean-mask bulk updates on the per-ballot frame become
  `List.map` over the list of per-ballot states.  Boolean indexing of a
  pandas `Index` (`vote_totals.index[cannot_win]` in `select_losers`) is
  *positional* — the mask is converted to a bare array and no label
  alignment happens — and is modelled positionally by `maskSelect`.
* `math.ceil` is `Int.ceil` on `ℚ`.
* The per-round transfer record (`round.transfers`) is reporting data only;
  its construction is not modelled, but the ballot mutation performed by
  `Tabulator.transfer_ballots` (skip one rank, then re-settle) is.
-/

/-- Sentinel used by `BallotSet` for a ballot whose rank pointer has run past
its last entry (`np.full(..., "exhausted")` column appended to the choice
lookup), and compared against by `BallotSet.is_exhausted`. -/
def exhaustedLab : String := "exhausted"

/-- Sentinel rank entry for an undervote, skipped by
`TabulatorRules.skip_to_next_eligible_rank`. -/
def undervoteLab : String := "undervote"

/-- Sentinel rank entry for an overvote, skipped by
`TabulatorRules.skip_to_next_eligible_rank`. -/
def overvoteLab : String := "overvote"

/-- Lexicographic order on lists of numbers, used to model the ascending key
order of pandas `groupby`. -/
def lexLe : List Nat → List Nat → Bool
  | [], _ => true
  | _ :: _, [] => false
  | a :: as, b :: bs => if a < b then true else if b < a then false else lexLe as bs

/-- Ascending string order (by code points), the order pandas uses for
grouped candidate keys. -/
def strLe (a b : String) : Bool :=
  lexLe (a.toList.map Char.toNat) (b.toList.map Char.toNat)

/-- `TiebreakMode` of `config.py`. -/
inductive TiebreakMode where
  | RANDOM
  | USE_CANDIDATE_ORDER
  | STOP_COUNTING_AND_ASK
  | GENERATE_PERMUTATION
  | PREVIOUS_ROUND_COUNTS_THEN_RANDOM
deriving Repr, DecidableEq

/-- `OvervoteRule` of `config.py`. -/
inductive OvervoteRule where
  | ALWAYS_SKIP_TO_NEXT_RANK
  | EXHAUST_IMMEDIATELY
  | EXHAUST_IF_MULTIPLE_CONTINUING
deriving Repr, DecidableEq

/-- `WinnerElectionMode` of `config.py`. -/
inductive WinnerElectionMode where
  | BOTTOMS_UP
  | SINGLE_WINNER_MAJORITY
  | MULTI_WINNER_ALLOW_MULTIPLE_WINNERS_PER_ROUND
  | MULTI_WINNER_ALLOW_ONLY_ONE_WINNER_PER_ROUND
  | MULTI_PASS_IRV
  | BOTTOMS_UP_USING_PERCENTAGE_THRESHOLD
deriving Repr, DecidableEq

/-- The `TabulatorRules` dataclass of `config.py` (configuration fields; the
numeric-model selection `T`/`arithmetic` is modelled by using `ℚ`
everywhere). -/
structure TabulatorRules where
  tiebreak_mode : TiebreakMode
  overvote_rule : OvervoteRule
  winner_election_mode : WinnerElectionMode
  random_seed : Option Int
  number_of_winners : Nat
  decimal_places_for_vote_arithmetic : Int
  minimum_vote_threshold : Option Int
  max_skipped_ranks_allowed : Nat
  max_rankings_allowed : Option Nat
  non_integer_winning_threshold : Bool
  hare_quota : Bool
  batch_elimination : Bool
  exhaust_on_duplicate_candidate : Bool
  rules_description : String
deriving Repr, DecidableEq

/-- Per-ballot mutable state held by `BallotSet.df`: the immutable rank
entries of the ballot (`ballot_records[ranks]` row), the current rank pointer
`_cur_rank_i`, and the current `vote_remaining` weight. -/
structure BallotState where
  choices : List String
  curRank : Nat
  voteRemaining : ℚ
deriving Repr, DecidableEq

/-- `BallotSet.cur_candidate` for one ballot: entry of the choice-lookup row
`choices ++ ["exhausted"]` at index `curRank`.  (The engine never moves the
pointer past that row; indices beyond it also read as `"exhausted"`.) -/
def BallotState.curCandidate (b : BallotState) : String :=
  (b.choices ++ [exhaustedLab]).getD b.curRank exhaustedLab

/-- `BallotSet.is_exhausted` for one ballot: string comparison of the current
candidate against the `"exhausted"` sentinel. -/
def BallotState.isExhausted (b : BallotState) : Bool :=
  b.curCandidate == exhaustedLab

/-- One step of `BallotSet.skip_to_next_rank` on a ballot inside the mask:
`_cur_rank_i += 1` followed by re-deriving `cur_candidate` (the derivation is
folded into `BallotState.curCandidate`). -/
def advanceBallot (b : BallotState) : BallotState :=
  { b with curRank := b.curRank + 1 }

/-- `BallotSet.skip_to_next_rank cvr_mask`: every ballot satisfying the mask
moves to its next rank; other ballots are untouched. -/
def skipToNextRank (mask : BallotState → Bool) (bs : List BallotState) :
    List BallotState :=
  bs.map (fun b => if mask b then advanceBallot b else b)

/-- The ineligibility test of `TabulatorRules.skip_to_next_eligible_rank`:
`cur_candidate.isin(["undervote", "overvote"] + ignore_candidates)`. -/
def ineligible (ignore : List String) (c : String) : Bool :=
  ([undervoteLab, overvoteLab] ++ ignore).contains c

/-- Fuelled fixpoint of the `skip_to_next_eligible_rank` loop restricted to a
single ballot: advance the rank pointer while the current candidate is
ineligible.  The Python loop advances all ineligible ballots in lock-step;
per ballot the effect is exactly this fixpoint. -/
def settleBallot (inel : String → Bool) : Nat → BallotState → BallotState
  | 0, b => b
  | n + 1, b =>
      if inel b.curCandidate then settleBallot inel n (advanceBallot b) else b

/-- `skip_to_next_eligible_rank` on one ballot.  Fuel `choices.length + 1`
always suffices: the pointer reaches the `"exhausted"` cell after at most
`choices.length` advances, and `"exhausted"` is never in the ineligible set
during a run (winners and losers come from tallies over non-exhausted
ballots). -/
def settleOne (ignore : List String) (b : BallotState) : BallotState :=
  settleBallot (ineligible ignore) (b.choices.length + 1) b

/-- `TabulatorRules.skip_to_next_eligible_rank` over the whole ballot set. -/
def settleAll (ignore : List String) (bs : List BallotState) :
    List BallotState :=
  bs.map (settleOne ignore)

/-- The `vote_remaining` contribution of candidate `c` in
`BallotSet.tally_votes`: sum of remaining weights over the non-exhausted
ballots whose current candidate is `c` (the `groupby("cur_candidate")` group
sum). -/
def tallyTotal (bs : List BallotState) (c : String) : ℚ :=
  ((bs.filter (fun b => !b.isExhausted && b.curCandidate == c)).map
    BallotState.voteRemaining).sum

/-- Current candidates of the non-exhausted ballots (the values grouped by
`BallotSet.tally_votes`). -/
def currentCands (bs : List BallotState) : List String :=
  (bs.filter (fun b => !b.isExhausted)).map BallotState.curCandidate

/-- Index of the series produced by `BallotSet.tally_votes`: the distinct
current candidates of non-exhausted ballots, in ascending order (pandas
`groupby` sorts its keys). -/
def tallyKeys (bs : List BallotState) : List String :=
  List.insertionSort (fun a b => strLe a b) (currentCands bs).dedup

/-- `tally_votes().sum()`: the continuing vote total used by
`TabulatorRules.threshold`. -/
def tallySum (bs : List BallotState) : ℚ :=
  ((tallyKeys bs).map (tallyTotal bs)).sum

/-- The `TabulationRound` dataclass of `tabulate.py` (the reporting-only
`transfers` field is not modelled). -/
structure TabulationRound where
  round_number : Nat
  vote_threshold : ℚ
  vote_totals : List (String × ℚ)
  winners : List String
  losers : List String
deriving Repr, DecidableEq

/-- The `Tabulation` dataclass of `tabulate.py`: the ballot set, the
most recently computed threshold, cumulative winners and losers, and the
ordered round records. -/
structure Tabulation where
  ballots : List BallotState
  threshold : ℚ
  winners : List String
  losers : List String
  rounds : List TabulationRound
deriving Repr, DecidableEq

/-- The series `round.vote_totals = tally_votes()`: grouped keys in ascending
order, each paired with its group sum. -/
def roundTotals (bs : List BallotState) : List (String × ℚ) :=
  (tallyKeys bs).map (fun c => (c, tallyTotal bs c))

/-- Series lookup `vote_totals[c]`: the total recorded for key `c`, `0` when
the key is absent (pandas would raise `KeyError`; the engine only looks up
keys that are present). -/
def totalLookup (totals : List (String × ℚ)) (c : String) : ℚ :=
  ((totals.find? (fun p => p.1 == c)).map Prod.snd).getD 0

/-- `TabulatorRules.threshold`: continuing vote total over the remaining open
seats — `eligible / remaining` under the Hare-quota flag, otherwise
`eligible / (1 + remaining)` (Droop).  Division is the exact-rational model
of `arithmetic.div`. -/
def thresholdCalc (rules : TabulatorRules) (t : Tabulation) : ℚ :=
  let eligible_votes := tallySum t.ballots
  let remaining_winners : ℚ :=
    (rules.number_of_winners : ℚ) - (t.winners.length : ℚ)
  if rules.hare_quota then eligible_votes / remaining_winners
  else eligible_votes / (1 + remaining_winners)

/-- `TabulatorRules.select_winners`: the keys of `round.vote_totals` whose
total strictly exceeds `round.vote_threshold`
(`vote_totals.index[vote_totals > round.vote_threshold]`). -/
def selectWinners (round : TabulationRound) : List String :=
  ((round.vote_totals.filter (fun p => round.vote_threshold < p.2)).map
    Prod.fst)

/-- `vote_totals.sort_values()`: the totals series reordered by ascending
total (stable, so ties keep the ascending-key order of the index). -/
def sortByVotes (totals : List (String × ℚ)) : List (String × ℚ) :=
  List.insertionSort (fun p q => p.2 ≤ q.2) totals

/-- The boolean series `sort_values().cumsum() < round.vote_threshold`,
positionally: walking the value-sorted series with a running sum, the `i`-th
entry records whether the running sum through position `i` stays below the
threshold. -/
def cumMask (thr : ℚ) : ℚ → List (String × ℚ) → List Bool
  | _, [] => []
  | acc, p :: rest => decide (acc + p.2 < thr) :: cumMask thr (acc + p.2) rest

/-- Boolean indexing of a pandas `Index`, `index[mask]`: the mask is
converted to a positional boolean array (no label alignment), keeping the
index entries at the `True` positions.  (numpy raises on a length mismatch;
in `select_losers` the mask always has the index's length.) -/
def maskSelect : List String → List Bool → List String
  | k :: ks, b :: ms => if b then k :: maskSelect ks ms else maskSelect ks ms
  | _, _ => []

/-- `TabulatorRules.select_losers`.  With `batch_elimination`, the code
computes `cannot_win = round.vote_totals.sort_values().cumsum() <
round.vote_threshold` — a boolean series in ascending-*value* order — and
returns `round.vote_totals.index[cannot_win]`, where the index is in
ascending-*key* order; because boolean indexing of an `Index` is positional,
the result is the keys in key order at the positions where the value-ordered
mask is `True`.  Otherwise the single first key of the value-sorted series
(`sort_values().index[0]`; on an empty series the Python raises
`IndexError`, modelled as `[]`). -/
def selectLosers (rules : TabulatorRules) (round : TabulationRound) :
    List String :=
  if rules.batch_elimination then
    maskSelect (round.vote_totals.map Prod.fst)
      (cumMask round.vote_threshold 0 (sortByVotes round.vote_totals))
  else
    ((sortByVotes round.vote_totals).map Prod.fst).take 1

/-- Walk the value-sorted series keeping a running sum, selecting each key
whose running sum stays below the threshold (helper for
`selectLosersSpec`). -/
def cumSelect (thr : ℚ) : ℚ → List (String × ℚ) → List String
  | _, [] => []
  | acc, p :: rest =>
      (if acc + p.2 < thr then [p.1] else []) ++ cumSelect thr (acc + p.2) rest

/-- What the specification's words prescribe for `select_losers`, stated for
comparison with `selectLosers` (the embedding of the code): with
`batch_elimination`, the maximal set of *lowest-total* candidates whose
cumulative total, summed in ascending order of totals, stays below the
threshold; otherwise the single lowest-total candidate. -/
def selectLosersSpec (rules : TabulatorRules) (round : TabulationRound) :
    List String :=
  if rules.batch_elimination then
    cumSelect round.vote_threshold 0 (sortByVotes round.vote_totals)
  else
    ((sortByVotes round.vote_totals).map Prod.fst).take 1

/-- The winner-surplus scaling loop of `Tabulator.tabulate_round`: for each
winner in order, `excess_vote_ratio = (total - threshold) / total` looked up
in the round's recorded totals, then every ballot currently on that winner
has `vote_remaining *= excess_vote_ratio`. -/
def scaleWinnerBallots (thr : ℚ) (totals : List (String × ℚ))
    (ws : List String) (bs : List BallotState) : List BallotState :=
  ws.foldl
    (fun acc w =>
      let excess_vote_ratio := (totalLookup totals w - thr) / totalLookup totals w
      acc.map (fun b =>
        if b.curCandidate == w then
          { b with voteRemaining := b.voteRemaining * excess_vote_ratio }
        else b))
    bs

/-- The ballot mutation of `Tabulator.transfer_ballots`: ballots currently on
one of `fromCands` skip one rank, then the whole set is re-settled against
`ignore`. -/
def transferBallots (fromCands ignore : List String)
    (bs : List BallotState) : List BallotState :=
  settleAll ignore
    (skipToNextRank (fun b => fromCands.contains b.curCandidate) bs)

/-- The ballot set at the start of `Tabulator.tabulate_round`, settled
against the cumulative winners and losers. -/
def roundSettled (t : Tabulation) : List BallotState :=
  settleAll (t.winners ++ t.losers) t.ballots

/-- The round record as first built by `Tabulator.tabulate_round`: number
`1 + len(rounds)`, the tabulation-level threshold, the tally of the settled
ballots, and no winners or losers assigned yet. -/
def roundRec0 (t : Tabulation) : TabulationRound :=
  { round_number := 1 + t.rounds.length
    vote_threshold := t.threshold
    vote_totals := roundTotals (roundSettled t)
    winners := []
    losers := [] }

/-- `Tabulator.tabulate_round`: settle against the cumulative winners and
losers, record the round (number, the tabulation-level threshold, the tally),
select winners; if any exist (`if round.winners:`) scale their ballots and
transfer them, else select losers and transfer those at full weight. -/
def tabulateRound (rules : TabulatorRules) (t : Tabulation) : Tabulation :=
  if (selectWinners (roundRec0 t)).isEmpty then
    { t with
      ballots := transferBallots (selectLosers rules (roundRec0 t))
        (selectLosers rules (roundRec0 t) ++ t.winners ++ t.losers)
        (roundSettled t)
      losers := t.losers ++ selectLosers rules (roundRec0 t)
      rounds := t.rounds ++
        [{ roundRec0 t with losers := selectLosers rules (roundRec0 t) }] }
  else
    { t with
      ballots := transferBallots (selectWinners (roundRec0 t))
        (t.winners ++ t.losers)
        (scaleWinnerBallots t.threshold (roundRec0 t).vote_totals
          (selectWinners (roundRec0 t)) (roundSettled t))
      winners := t.winners ++ selectWinners (roundRec0 t)
      rounds := t.rounds ++
        [{ roundRec0 t with winners := selectWinners (roundRec0 t) }] }

/-- `BallotSet.__init__`: rank pointer 0, current candidate the first rank
entry, weight the unit value `T(1)`. -/
def initialBallots (ballot_records : List (List String)) : List BallotState :=
  ballot_records.map (fun row => { choices := row, curRank := 0, voteRemaining := 1 })

/-- The freshly constructed `Tabulation` of `Tabulator.tabulate`, after the
initial `skip_to_next_eligible_rank` against the empty cumulative winner and
loser lists and before the threshold is computed (`threshold = None` is
modelled as `0`; it is overwritten before any use). -/
def tabulateStart (ballot_records : List (List String)) : Tabulation :=
  { ballots := settleAll ([] ++ []) (initialBallots ballot_records)
    threshold := 0
    winners := []
    losers := []
    rounds := [] }

/-- The prefix of `Tabulator.tabulate` before the round loop: build the
ballot set, settle it, and fix
`tabulation.threshold = T(math.ceil(rules.threshold(tabulation)))` once. -/
def tabulateInit (rules : TabulatorRules)
    (ballot_records : List (List String)) : Tabulation :=
  { tabulateStart ballot_records with
    threshold :=
      ((⌈thresholdCalc rules (tabulateStart ballot_records)⌉ : ℤ) : ℚ) }

/-- The round loop of `Tabulator.tabulate`, fuelled.  The Python
`while len(tabulation.winners) < number_of_winners` loop has no bound; the
fuel only makes the model total, and properties are stated for every fuel. -/
def tabulateSteps (rules : TabulatorRules) : Nat → Tabulation → Tabulation
  | 0, t => t
  | n + 1, t =>
      if t.winners.length < rules.number_of_winners then
        tabulateSteps rules n (tabulateRound rules t)
      else t

/-- Total remaining weight over all ballots. -/
def totalWeight (bs : List BallotState) : ℚ :=
  (bs.map BallotState.voteRemaining).sum

/-- Total remaining weight carried by exhausted ballots. -/
def exhaustedWeight (bs : List BallotState) : ℚ :=
  ((bs.filter (fun b => b.isExhausted)).map BallotState.voteRemaining).sum

/-- The conserved quantity of the spec: tallied continuing votes plus weight
sitting on exhausted ballots. -/
def systemTotal (bs : List BallotState) : ℚ :=
  tallySum bs + exhaustedWeight bs

/-! ## Basic facts about ballot progression -/

theorem curCandidate_of_len_le (b : BallotState)
    (h : b.choices.length ≤ b.curRank) : b.curCandidate = exhaustedLab := by
  unfold BallotState.curCandidate
  rcases Nat.eq_or_lt_of_le h with h1 | h1
  · rw [List.getD_eq_getElem?_getD, List.getElem?_append_right (by omega)]
    simp [← h1]
  · rw [List.getD_eq_getElem?_getD, List.getElem?_eq_none (by simp; omega)]
    rfl

theorem advanceBallot_choices (b : BallotState) :
    (advanceBallot b).choices = b.choices := rfl

theorem advanceBallot_weight (b : BallotState) :
    (advanceBallot b).voteRemaining = b.voteRemaining := rfl

theorem settleBallot_choices (inel : String → Bool) (n : Nat)
    (b : BallotState) : (settleBallot inel n b).choices = b.choices := by
  induction n generalizing b with
  | zero => rfl
  | succ n ih =>
      rw [settleBallot]
      split
      · rw [ih]; rfl
      · rfl

theorem settleBallot_weight (inel : String → Bool) (n : Nat)
    (b : BallotState) :
    (settleBallot inel n b).voteRemaining = b.voteRemaining := by
  induction n generalizing b with
  | zero => rfl
  | succ n ih =>
      rw [settleBallot]
      split
      · rw [ih]; rfl
      · rfl

theorem settleBallot_curRank_le (inel : String → Bool) (n : Nat)
    (b : BallotState) : b.curRank ≤ (settleBallot inel n b).curRank := by
  induction n generalizing b with
  | zero => exact Nat.le_refl _
  | succ n ih =>
      rw [settleBallot]
      split
      · exact Nat.le_trans (Nat.le_succ _) (ih (advanceBallot b))
      · exact Nat.le_refl _

theorem settleBallot_of_not_inel (inel : String → Bool) (n : Nat)
    (b : BallotState) (h : inel b.curCandidate = false) :
    settleBallot inel n b = b := by
  cases n with
  | zero => rfl
  | succ n => rw [settleBallot, h]; simp

theorem settleBallot_not_inel (inel : String → Bool)
    (hex : inel exhaustedLab = false) (n : Nat) (b : BallotState)
    (h : b.choices.length < b.curRank + n) :
    inel (settleBallot inel n b).curCandidate = false := by
  induction n generalizing b with
  | zero =>
      rw [settleBallot, curCandidate_of_len_le b (by omega)]
      exact hex
  | succ n ih =>
      rw [settleBallot]
      split
      · exact ih (advanceBallot b) (by simp [advanceBallot]; omega)
      · rename_i hni
        simp only [Bool.not_eq_true] at hni
        exact hni

theorem isExhausted_iff (b : BallotState) :
    b.isExhausted = true ↔ b.curCandidate = exhaustedLab := by
  simp [BallotState.isExhausted]

theorem ineligible_exhausted_eq_false (ignore : List String)
    (h : exhaustedLab ∉ ignore) : ineligible ignore exhaustedLab = false := by
  rw [Bool.eq_false_iff]
  intro hc
  rcases List.mem_append.mp (List.elem_iff.mp hc) with hc2 | hc2
  · revert hc2; decide
  · exact h hc2

theorem settleOne_choices (ignore : List String) (b : BallotState) :
    (settleOne ignore b).choices = b.choices :=
  settleBallot_choices _ _ _

theorem settleOne_weight (ignore : List String) (b : BallotState) :
    (settleOne ignore b).voteRemaining = b.voteRemaining :=
  settleBallot_weight _ _ _

theorem settleOne_curRank_le (ignore : List String) (b : BallotState) :
    b.curRank ≤ (settleOne ignore b).curRank :=
  settleBallot_curRank_le _ _ _

theorem settleOne_not_inel (ignore : List String) (b : BallotState)
    (h : exhaustedLab ∉ ignore) :
    ineligible ignore (settleOne ignore b).curCandidate = false :=
  settleBallot_not_inel _ (ineligible_exhausted_eq_false ignore h) _ b
    (by omega)

theorem settleOne_of_not_inel (ignore : List String) (b : BallotState)
    (h : ineligible ignore b.curCandidate = false) :
    settleOne ignore b = b :=
  settleBallot_of_not_inel _ _ _ h

theorem settleOne_of_exhausted (ignore : List String) (b : BallotState)
    (h : exhaustedLab ∉ ignore) (hb : b.isExhausted = true) :
    settleOne ignore b = b :=
  settleOne_of_not_inel ignore b
    (by rw [(isExhausted_iff b).mp hb]; exact ineligible_exhausted_eq_false ignore h)

theorem settleAll_length (ignore : List String) (bs : List BallotState) :
    (settleAll ignore bs).length = bs.length :=
  List.length_map _ _

theorem settleAll_getElem (ignore : List String) (bs : List BallotState)
    (i : Nat) (h : i < bs.length) (h2 : i < (settleAll ignore bs).length) :
    (settleAll ignore bs)[i] = settleOne ignore bs[i] :=
  List.getElem_map _

/-! ## The tally -/

theorem mem_tallyKeys (bs : List BallotState) (c : String) :
    c ∈ tallyKeys bs ↔
      ∃ b ∈ bs, b.isExhausted = false ∧ b.curCandidate = c := by
  unfold tallyKeys currentCands
  rw [List.mem_insertionSort, List.mem_dedup]
  simp only [List.mem_map, List.mem_filter, Bool.not_eq_true']
  constructor
  · rintro ⟨b, ⟨hb, he⟩, hc⟩
    exact ⟨b, hb, he, hc⟩
  · rintro ⟨b, hb, he, hc⟩
    exact ⟨b, ⟨hb, he⟩, hc⟩

theorem tallyKeys_nodup (bs : List BallotState) : (tallyKeys bs).Nodup :=
  ((List.perm_insertionSort _ _).nodup_iff).mpr (List.nodup_dedup _)

theorem exhausted_not_mem_tallyKeys (bs : List BallotState) :
    exhaustedLab ∉ tallyKeys bs := by
  rw [mem_tallyKeys]
  rintro ⟨b, _, he, hc⟩
  rw [← isExhausted_iff b] at hc
  rw [he] at hc
  exact Bool.false_ne_true hc

theorem tallyTotal_cons (b : BallotState) (bs : List BallotState)
    (c : String) :
    tallyTotal (b :: bs) c =
      (if b.isExhausted = false ∧ b.curCandidate = c then b.voteRemaining
       else 0) + tallyTotal bs c := by
  unfold tallyTotal
  rw [List.filter_cons]
  by_cases h1 : b.isExhausted = false ∧ b.curCandidate = c
  · rw [if_pos (by simp [h1.1, h1.2]), if_pos h1]
    simp
  · rw [if_neg (by simpa [not_and, Bool.not_eq_true'] using h1), if_neg h1]
    simp

theorem sum_map_ite_zero (ks : List String) (c : String) (x : ℚ)
    (h : c ∉ ks) : (ks.map (fun k => if c = k then x else 0)).sum = 0 := by
  induction ks with
  | nil => rfl
  | cons k rest ih =>
      rw [List.map_cons, List.sum_cons,
        if_neg (by intro hck; exact h (hck ▸ List.mem_cons_self k rest)),
        ih (fun hm => h (List.mem_cons_of_mem k hm)), add_zero]

theorem sum_map_indicator (ks : List String) (c : String) (x : ℚ)
    (hnd : ks.Nodup) (hc : c ∈ ks) :
    (ks.map (fun k => if c = k then x else 0)).sum = x := by
  induction ks with
  | nil => cases hc
  | cons k rest ih =>
      rw [List.map_cons, List.sum_cons]
      rcases List.mem_cons.mp hc with h1 | h1
      · rw [if_pos h1,
          sum_map_ite_zero rest c x (h1 ▸ (List.nodup_cons.mp hnd).1), add_zero]
      · rw [if_neg (fun hck : c = k =>
            (List.nodup_cons.mp hnd).1 (by rw [← hck]; exact h1)),
          ih (List.nodup_cons.mp hnd).2 h1, zero_add]

theorem sum_map_add_dist (ks : List String) (f g : String → ℚ) :
    (ks.map (fun k => f k + g k)).sum = (ks.map f).sum + (ks.map g).sum := by
  induction ks with
  | nil => simp
  | cons k rest ih => simp [ih]; ring

theorem sum_tallyTotal_eq (ks : List String) (bs : List BallotState)
    (hnd : ks.Nodup)
    (hcomp : ∀ b ∈ bs, b.isExhausted = false → b.curCandidate ∈ ks) :
    (ks.map (fun c => tallyTotal bs c)).sum =
      ((bs.filter (fun b => !b.isExhausted)).map
        BallotState.voteRemaining).sum := by
  induction bs with
  | nil =>
      rw [List.filter_nil, List.map_nil, List.sum_nil]
      exact List.sum_eq_zero (by
        intro x hx
        rcases List.mem_map.mp hx with ⟨c, _, hc⟩
        rw [← hc]; rfl)
  | cons b rest ih =>
      simp only [tallyTotal_cons]
      rw [sum_map_add_dist, ih (fun x hx he => hcomp x (List.mem_cons_of_mem b hx) he)]
      rw [List.filter_cons]
      by_cases he : b.isExhausted = false
      · have hmem := hcomp b (List.mem_cons_self b rest) he
        have hmapeq :
            (ks.map fun c =>
              if b.isExhausted = false ∧ b.curCandidate = c then
                b.voteRemaining else 0)
            = ks.map fun c =>
                if b.curCandidate = c then b.voteRemaining else 0 := by
          apply List.map_congr_left
          intro c _
          by_cases hc : b.curCandidate = c
          · rw [if_pos ⟨he, hc⟩, if_pos hc]
          · rw [if_neg (fun hand => hc hand.2), if_neg hc]
        rw [hmapeq, sum_map_indicator ks _ _ hnd hmem, if_pos (by simp [he]),
          List.map_cons, List.sum_cons]
      · have he2 : b.isExhausted = true := by
          revert he; cases b.isExhausted <;> simp
        rw [if_neg (by simp [he2])]
        have hz :
            (ks.map fun c =>
              if b.isExhausted = false ∧ b.curCandidate = c then
                b.voteRemaining else 0).sum = 0 :=
          List.sum_eq_zero (by
            intro x hx
            rcases List.mem_map.mp hx with ⟨c, _, hc⟩
            rw [← hc, if_neg (fun hand => by
              rw [hand.1] at he2; exact Bool.false_ne_true he2)])
        rw [hz, zero_add]

theorem tallySum_eq_continuing (bs : List BallotState) :
    tallySum bs =
      ((bs.filter (fun b => !b.isExhausted)).map
        BallotState.voteRemaining).sum :=
  sum_tallyTotal_eq _ bs (tallyKeys_nodup bs)
    (fun b hb he => (mem_tallyKeys bs _).mpr ⟨b, hb, he, rfl⟩)

theorem weight_partition (bs : List BallotState) :
    ((bs.filter (fun b => !b.isExhausted)).map
      BallotState.voteRemaining).sum
      + ((bs.filter (fun b => b.isExhausted)).map
          BallotState.voteRemaining).sum
      = totalWeight bs := by
  induction bs with
  | nil => simp [totalWeight]
  | cons b rest ih =>
      have ht : totalWeight (b :: rest) = b.voteRemaining + totalWeight rest := by
        simp [totalWeight]
      rw [ht, ← ih, List.filter_cons, List.filter_cons]
      cases hb : b.isExhausted <;> simp [hb] <;> ring

theorem systemTotal_eq_totalWeight (bs : List BallotState) :
    systemTotal bs = totalWeight bs := by
  rw [systemTotal, tallySum_eq_continuing, exhaustedWeight, weight_partition]

/-! ## Winner and loser selection -/

theorem filter_map_pairs (ks : List String) (f : String → ℚ)
    (pr : ℚ → Bool) :
    (((ks.map (fun k => (k, f k))).filter (fun p => pr p.2)).map Prod.fst)
      = ks.filter (fun k => pr (f k)) := by
  induction ks with
  | nil => rfl
  | cons k rest ih =>
      rw [List.map_cons, List.filter_cons, List.filter_cons]
      by_cases h : pr (f k) = true
      · rw [if_pos h, if_pos h, List.map_cons, ih]
      · rw [if_neg (by simpa using h), if_neg (by simpa using h), ih]

theorem selectWinners_roundTotals (bs : List BallotState) (thr : ℚ)
    (n : Nat) (w l : List String) :
    selectWinners
        { round_number := n, vote_threshold := thr,
          vote_totals := roundTotals bs, winners := w, losers := l }
      = (tallyKeys bs).filter (fun c => decide (thr < tallyTotal bs c)) := by
  unfold selectWinners roundTotals
  exact filter_map_pairs (tallyKeys bs) (tallyTotal bs) (fun q => decide (thr < q))

theorem mem_selectWinners_iff (bs : List BallotState) (thr : ℚ)
    (n : Nat) (w l : List String) (c : String) :
    c ∈ selectWinners
        { round_number := n, vote_threshold := thr,
          vote_totals := roundTotals bs, winners := w, losers := l }
      ↔ c ∈ tallyKeys bs ∧ thr < tallyTotal bs c := by
  rw [selectWinners_roundTotals, List.mem_filter]
  simp

theorem selectWinners_nodup (bs : List BallotState) (thr : ℚ)
    (n : Nat) (w l : List String) :
    (selectWinners
        { round_number := n, vote_threshold := thr,
          vote_totals := roundTotals bs, winners := w, losers := l }).Nodup := by
  rw [selectWinners_roundTotals]
  exact (tallyKeys_nodup bs).filter _

theorem sortByVotes_perm (totals : List (String × ℚ)) :
    (sortByVotes totals).Perm totals :=
  List.perm_insertionSort _ _

theorem sortByVotes_sorted (totals : List (String × ℚ)) :
    (sortByVotes totals).Sorted (fun p q => p.2 ≤ q.2) := by
  haveI h1 : IsTotal (String × ℚ) (fun p q => p.2 ≤ q.2) :=
    ⟨fun p q => le_total p.2 q.2⟩
  haveI h2 : IsTrans (String × ℚ) (fun p q => p.2 ≤ q.2) :=
    ⟨fun _ _ _ hab hbc => le_trans hab hbc⟩
  exact List.sorted_insertionSort _ _

theorem maskSelect_subset : ∀ (ks : List String) (ms : List Bool)
    (c : String), c ∈ maskSelect ks ms → c ∈ ks
  | [], ms, c => by intro hc; cases ms <;> cases hc
  | k :: ks, [], c => by intro hc; cases hc
  | k :: ks, m :: ms, c => by
      intro hc
      rw [maskSelect] at hc
      cases m with
      | false =>
          rw [if_neg (by simp)] at hc
          exact List.mem_cons_of_mem k (maskSelect_subset ks ms c hc)
      | true =>
          rw [if_pos rfl] at hc
          rcases List.mem_cons.mp hc with h | h
          · exact h ▸ List.mem_cons_self k ks
          · exact List.mem_cons_of_mem k (maskSelect_subset ks ms c h)

theorem mem_selectLosers_sub (rules : TabulatorRules)
    (round : TabulationRound) (c : String)
    (hc : c ∈ selectLosers rules round) :
    ∃ q, (c, q) ∈ round.vote_totals := by
  unfold selectLosers at hc
  split at hc
  · -- batch elimination: the mask keeps a subset of the index positions
    have h1 := maskSelect_subset _ _ c hc
    rcases List.mem_map.mp h1 with ⟨p, hp, hfst⟩
    exact ⟨p.2, by rw [← hfst]; exact hp⟩
  · -- single elimination: the head of the value-sorted series
    have hmem := List.take_subset _ _ hc
    rcases List.mem_map.mp hmem with ⟨p, hp, hfst⟩
    exact ⟨p.2, by
      rw [← hfst]
      exact (sortByVotes_perm round.vote_totals).mem_iff.mp hp⟩

theorem totalLookup_map_mem (ks : List String) (f : String → ℚ) (c : String)
    (hc : c ∈ ks) :
    totalLookup (ks.map (fun k => (k, f k))) c = f c := by
  induction ks with
  | nil => cases hc
  | cons k rest ih =>
      rw [List.map_cons]
      unfold totalLookup
      by_cases hkc : k = c
      · subst hkc; simp
      · rw [List.find?_cons_of_neg _ (by simpa using hkc)]
        exact ih (by rcases List.mem_cons.mp hc with h | h
                     · exact absurd h.symm hkc
                     · exact h)

theorem totalLookup_map_not_mem (ks : List String) (f : String → ℚ)
    (c : String) (hc : c ∉ ks) :
    totalLookup (ks.map (fun k => (k, f k))) c = 0 := by
  induction ks with
  | nil => rfl
  | cons k rest ih =>
      rw [List.map_cons]
      unfold totalLookup
      rw [List.find?_cons_of_neg _
        (by simp; intro h; exact hc (h ▸ List.mem_cons_self k rest))]
      exact ih (fun h => hc (List.mem_cons_of_mem k h))

theorem totalLookup_roundTotals (bs : List BallotState) (c : String) :
    totalLookup (roundTotals bs) c =
      if c ∈ tallyKeys bs then tallyTotal bs c else 0 := by
  unfold roundTotals
  by_cases hc : c ∈ tallyKeys bs
  · rw [if_pos hc, totalLookup_map_mem _ _ _ hc]
  · rw [if_neg hc, totalLookup_map_not_mem _ _ _ hc]

theorem mem_roundTotals (bs : List BallotState) (p : String × ℚ) :
    p ∈ roundTotals bs ↔ p.1 ∈ tallyKeys bs ∧ p.2 = tallyTotal bs p.1 := by
  unfold roundTotals
  rw [List.mem_map]
  constructor
  · rintro ⟨k, hk, hp⟩
    rw [← hp]
    exact ⟨hk, rfl⟩
  · rintro ⟨h1, h2⟩
    exact ⟨p.1, h1, by rw [← h2]⟩

theorem selectWinners_roundRec0 (t : Tabulation) :
    selectWinners (roundRec0 t)
      = (tallyKeys (roundSettled t)).filter
          (fun c => decide (t.threshold < tallyTotal (roundSettled t) c)) :=
  selectWinners_roundTotals (roundSettled t) t.threshold _ [] []

theorem mem_tallyKeys_settleAll (ignore : List String)
    (bs : List BallotState) (c : String) (hex : exhaustedLab ∉ ignore)
    (hc : c ∈ tallyKeys (settleAll ignore bs)) :
    ineligible ignore c = false := by
  rcases (mem_tallyKeys _ c).mp hc with ⟨b, hb, _, hcur⟩
  rcases List.mem_map.mp hb with ⟨b0, _, hb0⟩
  rw [← hcur, ← hb0]
  exact settleOne_not_inel ignore b0 hex

theorem not_inel_not_mem (ignore : List String) (c : String)
    (h : ineligible ignore c = false) : c ∉ ignore := by
  intro hc
  rw [Bool.eq_false_iff] at h
  exact h (List.elem_iff.mpr (List.mem_append.mpr (Or.inr hc)))

/-! ## Per-ballot monotonicity -/

/-- Relation between a ballot's state before and after an engine operation:
the ranking never changes, the rank pointer never rewinds, a non-negative
weight stays non-negative and never grows, and an exhausted ballot is left
untouched. -/
def BallotMono (a b : BallotState) : Prop :=
  b.choices = a.choices ∧ a.curRank ≤ b.curRank ∧
    (0 ≤ a.voteRemaining →
      0 ≤ b.voteRemaining ∧ b.voteRemaining ≤ a.voteRemaining) ∧
    (a.isExhausted = true → b = a)

theorem ballotMono_refl (a : BallotState) : BallotMono a a :=
  ⟨rfl, Nat.le_refl _, fun h => ⟨h, le_refl _⟩, fun _ => rfl⟩

theorem ballotMono_trans {a b c : BallotState} (h1 : BallotMono a b)
    (h2 : BallotMono b c) : BallotMono a c := by
  refine ⟨h2.1.trans h1.1, h1.2.1.trans h2.2.1, ?_, ?_⟩
  · intro ha
    rcases h1.2.2.1 ha with ⟨hb0, hba⟩
    rcases h2.2.2.1 hb0 with ⟨hc0, hcb⟩
    exact ⟨hc0, hcb.trans hba⟩
  · intro ha
    have hba := h1.2.2.2 ha
    rw [hba] at h2
    exact h2.2.2.2 ha

/-- Pointwise `BallotMono` between two ballot lists of equal length. -/
def ListMono (as bs : List BallotState) : Prop :=
  bs.length = as.length ∧
    ∀ i (ha : i < as.length) (hb : i < bs.length), BallotMono as[i] bs[i]

theorem listMono_refl (as : List BallotState) : ListMono as as :=
  ⟨rfl, fun _ _ _ => ballotMono_refl _⟩

theorem listMono_trans {as bs cs : List BallotState} (h1 : ListMono as bs)
    (h2 : ListMono bs cs) : ListMono as cs := by
  obtain ⟨hl1, hm1⟩ := h1
  obtain ⟨hl2, hm2⟩ := h2
  refine ⟨hl2.trans hl1, fun i ha hc => ?_⟩
  have hb : i < bs.length := by omega
  exact ballotMono_trans (hm1 i ha hb) (hm2 i hb hc)

theorem settleOne_mono (ignore : List String) (b : BallotState)
    (hex : exhaustedLab ∉ ignore) : BallotMono b (settleOne ignore b) := by
  refine ⟨settleOne_choices ignore b, settleOne_curRank_le ignore b, ?_, ?_⟩
  · intro h
    rw [settleOne_weight]
    exact ⟨h, le_refl _⟩
  · intro h
    exact settleOne_of_exhausted ignore b hex h

theorem settleAll_mono (ignore : List String) (bs : List BallotState)
    (hex : exhaustedLab ∉ ignore) : ListMono bs (settleAll ignore bs) := by
  refine ⟨List.length_map _ _, fun i h hb => ?_⟩
  rw [settleAll_getElem ignore bs i h hb]
  exact settleOne_mono ignore bs[i] hex

theorem skipToNextRank_mono (mask : BallotState → Bool)
    (bs : List BallotState)
    (hmask : ∀ b, b.isExhausted = true → mask b = false) :
    ListMono bs (skipToNextRank mask bs) := by
  refine ⟨List.length_map _ _, fun i h hb => ?_⟩
  unfold skipToNextRank
  rw [List.getElem_map]
  by_cases hm : mask bs[i] = true
  · rw [if_pos hm]
    refine ⟨rfl, Nat.le_succ _, fun hw => ⟨hw, le_refl _⟩, fun hexh => ?_⟩
    · rw [hmask bs[i] hexh] at hm
      exact absurd hm (by simp)
  · rw [if_neg hm]
    exact ballotMono_refl _

theorem scaleOne_mono (rt : ℚ) (w : String) (bs : List BallotState)
    (hr0 : 0 ≤ rt) (hr1 : rt ≤ 1) (hw : w ≠ exhaustedLab) :
    ListMono bs
      (bs.map (fun b =>
        if b.curCandidate == w then
          { b with voteRemaining := b.voteRemaining * rt }
        else b)) := by
  refine ⟨List.length_map _ _, fun i h hb => ?_⟩
  rw [List.getElem_map]
  by_cases hm : (bs[i].curCandidate == w) = true
  · rw [if_pos hm]
    refine ⟨rfl, le_refl _, fun hnn => ?_, fun hexh => ?_⟩
    · constructor
      · exact mul_nonneg hnn hr0
      · calc bs[i].voteRemaining * rt
            ≤ bs[i].voteRemaining * 1 := by
              exact mul_le_mul_of_nonneg_left hr1 hnn
          _ = bs[i].voteRemaining := mul_one _
    · exfalso
      apply hw
      rw [← beq_iff_eq.mp hm]
      exact (isExhausted_iff _).mp hexh
  · rw [if_neg hm]
    exact ballotMono_refl _

theorem scaleWinnerBallots_mono (thr : ℚ) (totals : List (String × ℚ))
    (ws : List String) (bs : List BallotState)
    (hws : ∀ w ∈ ws, w ≠ exhaustedLab ∧
      0 ≤ (totalLookup totals w - thr) / totalLookup totals w ∧
      (totalLookup totals w - thr) / totalLookup totals w ≤ 1) :
    ListMono bs (scaleWinnerBallots thr totals ws bs) := by
  induction ws generalizing bs with
  | nil => exact listMono_refl bs
  | cons w rest ih =>
      have hstep := scaleOne_mono
        ((totalLookup totals w - thr) / totalLookup totals w) w bs
        (hws w (List.mem_cons_self w rest)).2.1
        (hws w (List.mem_cons_self w rest)).2.2
        (hws w (List.mem_cons_self w rest)).1
      have hrest := ih
        (bs.map (fun b =>
          if b.curCandidate == w then
            { b with voteRemaining :=
                b.voteRemaining * ((totalLookup totals w - thr) / totalLookup totals w) }
          else b))
        (fun w' hw' => hws w' (List.mem_cons_of_mem w hw'))
      exact listMono_trans hstep hrest

theorem transferBallots_mono (fromCands ignore : List String)
    (bs : List BallotState) (hex1 : exhaustedLab ∉ fromCands)
    (hex2 : exhaustedLab ∉ ignore) :
    ListMono bs (transferBallots fromCands ignore bs) := by
  unfold transferBallots
  refine listMono_trans (skipToNextRank_mono _ bs ?_) (settleAll_mono ignore _ hex2)
  intro b hb
  rw [Bool.eq_false_iff]
  intro hc
  apply hex1
  have hmem : b.curCandidate ∈ fromCands := List.elem_iff.mp hc
  rw [(isExhausted_iff b).mp hb] at hmem
  exact hmem

theorem listMono_nonneg {as bs : List BallotState} (h : ListMono as bs)
    (hn : ∀ b ∈ as, 0 ≤ b.voteRemaining) :
    ∀ b ∈ bs, 0 ≤ b.voteRemaining := by
  intro b hb
  rcases List.mem_iff_getElem.mp hb with ⟨i, hi, rfl⟩
  have ha : i < as.length := by rw [← h.1]; exact hi
  exact ((h.2 i ha hi).2.2.1 (hn _ (List.getElem_mem ha))).1

theorem tallyTotal_nonneg (bs : List BallotState)
    (hn : ∀ b ∈ bs, 0 ≤ b.voteRemaining) (c : String) :
    0 ≤ tallyTotal bs c := by
  unfold tallyTotal
  apply List.sum_nonneg
  intro x hx
  rcases List.mem_map.mp hx with ⟨b, hb, rfl⟩
  exact hn b (List.mem_filter.mp hb).1

theorem tallySum_nonneg (bs : List BallotState)
    (hn : ∀ b ∈ bs, 0 ≤ b.voteRemaining) : 0 ≤ tallySum bs := by
  unfold tallySum
  apply List.sum_nonneg
  intro x hx
  rcases List.mem_map.mp hx with ⟨c, _, rfl⟩
  exact tallyTotal_nonneg bs hn c

/-! ## The run invariant -/

/-- Invariant maintained by the round loop of `Tabulator.tabulate`: weights
are non-negative, the fixed threshold is non-negative, the `"exhausted"`
sentinel never becomes a winner or loser, cumulative winners and losers are
disjoint, and every recorded round carries the tabulation threshold, has
winners or losers but not both, and its winners are exactly the keys tallied
strictly above the threshold. -/
structure TabInv (t : Tabulation) : Prop where
  weights_nonneg : ∀ b ∈ t.ballots, 0 ≤ b.voteRemaining
  thr_nonneg : 0 ≤ t.threshold
  ex_winners : exhaustedLab ∉ t.winners
  ex_losers : exhaustedLab ∉ t.losers
  disj : ∀ c, c ∈ t.winners → c ∈ t.losers → False
  rounds_thr : ∀ r ∈ t.rounds, r.vote_threshold = t.threshold
  rounds_excl : ∀ r ∈ t.rounds, r.winners = [] ∨ r.losers = []
  rounds_winchar : ∀ r ∈ t.rounds, ∀ c,
    c ∈ r.winners ↔ r.vote_threshold < totalLookup r.vote_totals c

theorem ex_not_mem_ignore (t : Tabulation) (h : TabInv t) :
    exhaustedLab ∉ t.winners ++ t.losers := by
  rw [List.mem_append]
  rintro (hc | hc)
  · exact h.ex_winners hc
  · exact h.ex_losers hc

theorem roundSettled_nonneg (t : Tabulation) (h : TabInv t) :
    ∀ b ∈ roundSettled t, 0 ≤ b.voteRemaining :=
  listMono_nonneg (settleAll_mono _ _ (ex_not_mem_ignore t h))
    h.weights_nonneg

theorem tallyKeys_roundSettled_facts (t : Tabulation) (h : TabInv t)
    (c : String) (hc : c ∈ tallyKeys (roundSettled t)) :
    c ≠ exhaustedLab ∧ c ∉ t.winners ∧ c ∉ t.losers := by
  refine ⟨fun he => exhausted_not_mem_tallyKeys _ (he ▸ hc), ?_, ?_⟩
  all_goals
    have hninel := mem_tallyKeys_settleAll (t.winners ++ t.losers)
      t.ballots c (ex_not_mem_ignore t h) hc
    have hnm := not_inel_not_mem _ _ hninel
    rw [List.mem_append] at hnm
    push_neg at hnm
  · exact hnm.1
  · exact hnm.2

theorem selectWinners_facts (t : Tabulation) (h : TabInv t) :
    ∀ w ∈ selectWinners (roundRec0 t),
      w ∈ tallyKeys (roundSettled t) ∧
      t.threshold < tallyTotal (roundSettled t) w ∧
      0 < tallyTotal (roundSettled t) w ∧
      totalLookup (roundTotals (roundSettled t)) w
        = tallyTotal (roundSettled t) w := by
  intro w hw
  rw [selectWinners_roundRec0, List.mem_filter] at hw
  obtain ⟨hk, hlt⟩ := hw
  have hlt2 : t.threshold < tallyTotal (roundSettled t) w := by
    simpa using hlt
  refine ⟨hk, hlt2, lt_of_le_of_lt h.thr_nonneg hlt2, ?_⟩
  rw [totalLookup_roundTotals, if_pos hk]

theorem selectLosers_keys (rules : TabulatorRules) (t : Tabulation)
    (c : String) (hc : c ∈ selectLosers rules (roundRec0 t)) :
    c ∈ tallyKeys (roundSettled t) := by
  rcases mem_selectLosers_sub rules (roundRec0 t) c hc with ⟨q, hq⟩
  have : (c, q).1 ∈ tallyKeys (roundSettled t) :=
    ((mem_roundTotals _ _).mp hq).1
  exact this

theorem tabInv_round (rules : TabulatorRules) (t : Tabulation)
    (h : TabInv t) :
    TabInv (tabulateRound rules t) ∧
      ListMono t.ballots (tabulateRound rules t).ballots ∧
      (tabulateRound rules t).threshold = t.threshold := by
  have hsettle := settleAll_mono (t.winners ++ t.losers) t.ballots
    (ex_not_mem_ignore t h)
  by_cases hW : (selectWinners (roundRec0 t)).isEmpty = true
  · -- loser branch
    have hWnil : selectWinners (roundRec0 t) = [] := List.isEmpty_iff.mp hW
    have hLfacts : ∀ c ∈ selectLosers rules (roundRec0 t),
        c ≠ exhaustedLab ∧ c ∉ t.winners ∧ c ∉ t.losers :=
      fun c hc => tallyKeys_roundSettled_facts t h c
        (selectLosers_keys rules t c hc)
    have hexL : exhaustedLab ∉ selectLosers rules (roundRec0 t) :=
      fun hc => (hLfacts _ hc).1 rfl
    have hmono : ListMono t.ballots
        (transferBallots (selectLosers rules (roundRec0 t))
          (selectLosers rules (roundRec0 t) ++ t.winners ++ t.losers)
          (roundSettled t)) := by
      refine listMono_trans hsettle (transferBallots_mono _ _ _ hexL ?_)
      rw [List.mem_append, List.mem_append]
      rintro ((hc | hc) | hc)
      · exact hexL hc
      · exact h.ex_winners hc
      · exact h.ex_losers hc
    have hnowin : ∀ c ∈ tallyKeys (roundSettled t),
        ¬ (t.threshold < tallyTotal (roundSettled t) c) := by
      intro c hc
      have heq := selectWinners_roundRec0 t
      rw [hWnil] at heq
      have h2 := (List.filter_eq_nil_iff.mp heq.symm) c hc
      simpa using h2
    unfold tabulateRound
    rw [if_pos hW]
    refine ⟨⟨?_, ?_, ?_, ?_, ?_, ?_, ?_, ?_⟩, hmono, rfl⟩
    · exact listMono_nonneg hmono h.weights_nonneg
    · exact h.thr_nonneg
    · exact h.ex_winners
    · intro hc
      rcases List.mem_append.mp hc with hc | hc
      · exact h.ex_losers hc
      · exact hexL (by simpa using hc)
    · intro c hcw hcl
      rcases List.mem_append.mp hcl with hcl | hcl
      · exact h.disj c hcw hcl
      · exact (hLfacts c (by simpa using hcl)).2.1 hcw
    · intro r hr
      rcases List.mem_append.mp hr with hr | hr
      · exact h.rounds_thr r hr
      · rw [List.mem_singleton.mp hr]; rfl
    · intro r hr
      rcases List.mem_append.mp hr with hr | hr
      · exact h.rounds_excl r hr
      · rw [List.mem_singleton.mp hr]; left; rfl
    · intro r hr c
      rcases List.mem_append.mp hr with hr | hr
      · exact h.rounds_winchar r hr c
      · rw [List.mem_singleton.mp hr]
        simp only [roundRec0]
        rw [totalLookup_roundTotals]
        constructor
        · intro hc
          exact absurd hc (List.not_mem_nil c)
        · intro hc
          exfalso
          by_cases hk : c ∈ tallyKeys (roundSettled t)
          · rw [if_pos hk] at hc
            exact hnowin c hk hc
          · rw [if_neg hk] at hc
            exact absurd hc (not_lt.mpr h.thr_nonneg)
  · -- winner branch
    have hWfacts := selectWinners_facts t h
    have hWmem : ∀ w ∈ selectWinners (roundRec0 t),
        w ≠ exhaustedLab ∧ w ∉ t.winners ∧ w ∉ t.losers :=
      fun w hw => tallyKeys_roundSettled_facts t h w (hWfacts w hw).1
    have hexW : exhaustedLab ∉ selectWinners (roundRec0 t) :=
      fun hc => (hWmem _ hc).1 rfl
    have hrbound : ∀ w ∈ selectWinners (roundRec0 t),
        w ≠ exhaustedLab ∧
        0 ≤ (totalLookup (roundRec0 t).vote_totals w - t.threshold) /
              totalLookup (roundRec0 t).vote_totals w ∧
        (totalLookup (roundRec0 t).vote_totals w - t.threshold) /
              totalLookup (roundRec0 t).vote_totals w ≤ 1 := by
      intro w hw
      obtain ⟨hk, hlt, hpos, hlook⟩ := hWfacts w hw
      have hlook2 : totalLookup (roundRec0 t).vote_totals w
          = tallyTotal (roundSettled t) w := hlook
      refine ⟨(hWmem w hw).1, ?_, ?_⟩
      · rw [hlook2]
        exact div_nonneg (by linarith) (le_of_lt hpos)
      · rw [hlook2, div_le_one hpos]
        linarith [h.thr_nonneg]
    have hmono : ListMono t.ballots
        (transferBallots (selectWinners (roundRec0 t))
          (t.winners ++ t.losers)
          (scaleWinnerBallots t.threshold (roundRec0 t).vote_totals
            (selectWinners (roundRec0 t)) (roundSettled t))) := by
      refine listMono_trans hsettle (listMono_trans
        (scaleWinnerBallots_mono t.threshold (roundRec0 t).vote_totals
          (selectWinners (roundRec0 t)) (roundSettled t) hrbound)
        (transferBallots_mono _ _ _ hexW (ex_not_mem_ignore t h)))
    unfold tabulateRound
    rw [if_neg hW]
    refine ⟨⟨?_, ?_, ?_, ?_, ?_, ?_, ?_, ?_⟩, hmono, rfl⟩
    · exact listMono_nonneg hmono h.weights_nonneg
    · exact h.thr_nonneg
    · intro hc
      rcases List.mem_append.mp hc with hc | hc
      · exact h.ex_winners hc
      · exact hexW hc
    · exact h.ex_losers
    · intro c hcw hcl
      rcases List.mem_append.mp hcw with hcw | hcw
      · exact h.disj c hcw hcl
      · exact (hWmem c hcw).2.2 hcl
    · intro r hr
      rcases List.mem_append.mp hr with hr | hr
      · exact h.rounds_thr r hr
      · rw [List.mem_singleton.mp hr]; rfl
    · intro r hr
      rcases List.mem_append.mp hr with hr | hr
      · exact h.rounds_excl r hr
      · rw [List.mem_singleton.mp hr]; right; rfl
    · intro r hr c
      rcases List.mem_append.mp hr with hr | hr
      · exact h.rounds_winchar r hr c
      · rw [List.mem_singleton.mp hr]
        simp only [roundRec0]
        rw [totalLookup_roundTotals]
        constructor
        · intro hc
          obtain ⟨hk, hlt, _, _⟩ := hWfacts c hc
          rw [if_pos hk]
          exact hlt
        · intro hc
          by_cases hk : c ∈ tallyKeys (roundSettled t)
          · rw [if_pos hk] at hc
            rw [selectWinners_roundTotals, List.mem_filter]
            exact ⟨hk, by simpa using hc⟩
          · rw [if_neg hk] at hc
            exact absurd hc (not_lt.mpr h.thr_nonneg)

theorem thresholdCalc_nonneg (rules : TabulatorRules) (t : Tabulation)
    (hn : ∀ b ∈ t.ballots, 0 ≤ b.voteRemaining)
    (hw : (t.winners.length : ℚ) ≤ (rules.number_of_winners : ℚ)) :
    0 ≤ thresholdCalc rules t := by
  unfold thresholdCalc
  have hV := tallySum_nonneg t.ballots hn
  split
  · exact div_nonneg hV (by linarith)
  · exact div_nonneg hV (by linarith)

theorem initialBallots_nonneg (records : List (List String)) :
    ∀ b ∈ initialBallots records, 0 ≤ b.voteRemaining := by
  intro b hb
  rcases List.mem_map.mp hb with ⟨row, _, rfl⟩
  norm_num

theorem tabulateStart_nonneg (records : List (List String)) :
    ∀ b ∈ (tabulateStart records).ballots, 0 ≤ b.voteRemaining :=
  listMono_nonneg (settleAll_mono _ _ (by simp))
    (initialBallots_nonneg records)

theorem tabInv_init (rules : TabulatorRules)
    (records : List (List String)) : TabInv (tabulateInit rules records) := by
  refine ⟨?_, ?_, ?_, ?_, ?_, ?_, ?_, ?_⟩
  · exact tabulateStart_nonneg records
  · show (0 : ℚ) ≤ ((⌈thresholdCalc rules (tabulateStart records)⌉ : ℤ) : ℚ)
    have h1 : 0 ≤ thresholdCalc rules (tabulateStart records) :=
      thresholdCalc_nonneg rules _ (tabulateStart_nonneg records)
        (by simp [tabulateStart])
    exact_mod_cast Int.ceil_nonneg h1
  · exact List.not_mem_nil _
  · exact List.not_mem_nil _
  · intro c hc; exact absurd hc (List.not_mem_nil c)
  · intro r hr; exact absurd hr (List.not_mem_nil r)
  · intro r hr; exact absurd hr (List.not_mem_nil r)
  · intro r hr; exact absurd hr (List.not_mem_nil r)

theorem tabInv_steps (rules : TabulatorRules) (n : Nat) (t : Tabulation)
    (h : TabInv t) :
    TabInv (tabulateSteps rules n t) ∧
      ListMono t.ballots (tabulateSteps rules n t).ballots ∧
      (tabulateSteps rules n t).threshold = t.threshold := by
  induction n generalizing t with
  | zero => exact ⟨h, listMono_refl _, rfl⟩
  | succ n ih =>
      rw [tabulateSteps]
      split
      · obtain ⟨h1, h2, h3⟩ := tabInv_round rules t h
        obtain ⟨h4, h5, h6⟩ := ih (tabulateRound rules t) h1
        exact ⟨h4, listMono_trans h2 h5, h6.trans h3⟩
      · exact ⟨h, listMono_refl _, rfl⟩

/-! ## Weight conservation -/

/-- Total remaining weight currently sitting on candidate `w` (the mask
`cur_candidate == winner` used by the surplus-scaling loop). -/
def sumWeightOn (bs : List BallotState) (w : String) : ℚ :=
  ((bs.filter (fun b => b.curCandidate == w)).map
    BallotState.voteRemaining).sum

theorem sumWeightOn_eq_tallyTotal (bs : List BallotState) (w : String)
    (hw : w ≠ exhaustedLab) : sumWeightOn bs w = tallyTotal bs w := by
  unfold sumWeightOn tallyTotal
  have hfilter : bs.filter (fun b => b.curCandidate == w)
      = bs.filter (fun b => !b.isExhausted && b.curCandidate == w) := by
    apply List.filter_congr
    intro b _
    by_cases hc : b.curCandidate = w
    · have hne : b.isExhausted = false := by
        rw [Bool.eq_false_iff]
        intro hexh
        exact hw (hc ▸ (isExhausted_iff b).mp hexh)
      rw [hne]
      simp [hc]
    · have h1 : (b.curCandidate == w) = false := by simpa using hc
      rw [h1]
      simp
  rw [hfilter]

theorem totalWeight_map_of_weight_eq (f : BallotState → BallotState)
    (bs : List BallotState)
    (hf : ∀ b, (f b).voteRemaining = b.voteRemaining) :
    totalWeight (bs.map f) = totalWeight bs := by
  unfold totalWeight
  induction bs with
  | nil => rfl
  | cons b rest ih =>
      rw [List.map_cons, List.map_cons, List.map_cons, List.sum_cons,
        List.sum_cons, hf b, ih]

theorem settleAll_totalWeight (ignore : List String)
    (bs : List BallotState) :
    totalWeight (settleAll ignore bs) = totalWeight bs :=
  totalWeight_map_of_weight_eq _ bs (settleOne_weight ignore)

theorem skipToNextRank_totalWeight (mask : BallotState → Bool)
    (bs : List BallotState) :
    totalWeight (skipToNextRank mask bs) = totalWeight bs :=
  totalWeight_map_of_weight_eq _ bs (by
    intro b
    by_cases hm : mask b = true
    · rw [if_pos hm]; rfl
    · rw [if_neg hm])

theorem transferBallots_totalWeight (fromCands ignore : List String)
    (bs : List BallotState) :
    totalWeight (transferBallots fromCands ignore bs) = totalWeight bs := by
  unfold transferBallots
  rw [settleAll_totalWeight, skipToNextRank_totalWeight]

theorem scaleOne_totalWeight (bs : List BallotState) (w : String) (r : ℚ) :
    totalWeight (bs.map (fun b =>
        if b.curCandidate == w then
          { b with voteRemaining := b.voteRemaining * r }
        else b))
      = totalWeight bs + (r - 1) * sumWeightOn bs w := by
  induction bs with
  | nil => simp [totalWeight, sumWeightOn]
  | cons b rest ih =>
      simp only [totalWeight, sumWeightOn, List.map_cons, List.sum_cons,
        List.filter_cons] at ih ⊢
      by_cases hc : (b.curCandidate == w) = true
      · rw [if_pos hc, if_pos hc, List.map_cons, List.sum_cons]
        show b.voteRemaining * r + _ = _
        rw [ih]
        ring
      · rw [if_neg hc, if_neg hc, ih]
        ring

theorem scaleOne_sumWeightOn_other (bs : List BallotState)
    (w wo : String) (r : ℚ) (hne : wo ≠ w) :
    sumWeightOn (bs.map (fun b =>
        if b.curCandidate == w then
          { b with voteRemaining := b.voteRemaining * r }
        else b)) wo
      = sumWeightOn bs wo := by
  induction bs with
  | nil => rfl
  | cons b rest ih =>
      simp only [sumWeightOn, List.map_cons, List.filter_cons] at ih ⊢
      by_cases hc : (b.curCandidate == w) = true
      · have hno : (b.curCandidate == wo) = false := by
          rw [Bool.eq_false_iff]
          intro hcc
          exact hne ((beq_iff_eq.mp hcc).symm.trans (beq_iff_eq.mp hc))
        rw [if_pos hc]
        have hcur : ({ b with voteRemaining := b.voteRemaining * r } :
            BallotState).curCandidate = b.curCandidate := rfl
        rw [if_neg (by rw [hcur, hno]; exact Bool.false_ne_true),
          if_neg (by rw [hno]; exact Bool.false_ne_true)]
        exact ih
      · rw [if_neg hc]
        by_cases ho : (b.curCandidate == wo) = true
        · rw [if_pos ho, if_pos ho, List.map_cons, List.sum_cons,
            List.map_cons, List.sum_cons, ih]
        · rw [if_neg ho, if_neg ho, ih]

theorem scaleWinnerBallots_totalWeight (thr : ℚ)
    (totals : List (String × ℚ)) (ws : List String)
    (bs : List BallotState) (hnd : ws.Nodup)
    (hws : ∀ w ∈ ws, totalLookup totals w = sumWeightOn bs w ∧
      totalLookup totals w ≠ 0) :
    totalWeight (scaleWinnerBallots thr totals ws bs)
      = totalWeight bs - thr * ws.length := by
  induction ws generalizing bs with
  | nil => simp [scaleWinnerBallots]
  | cons w rest ih =>
      obtain ⟨hlook, hne⟩ := hws w (List.mem_cons_self w rest)
      have hstep : totalWeight (bs.map (fun b =>
          if b.curCandidate == w then
            { b with voteRemaining := b.voteRemaining *
                ((totalLookup totals w - thr) / totalLookup totals w) }
          else b)) = totalWeight bs - thr := by
        rw [scaleOne_totalWeight, ← hlook]
        have hx : ((totalLookup totals w - thr) / totalLookup totals w - 1) *
            totalLookup totals w = -thr := by
          field_simp
        rw [hx]
        ring
      have hws2 : ∀ w' ∈ rest,
          totalLookup totals w' = sumWeightOn (bs.map (fun b =>
            if b.curCandidate == w then
              { b with voteRemaining := b.voteRemaining *
                  ((totalLookup totals w - thr) / totalLookup totals w) }
            else b)) w' ∧ totalLookup totals w' ≠ 0 := by
        intro w' hw'
        obtain ⟨hl', hn'⟩ := hws w' (List.mem_cons_of_mem w hw')
        have hne2 : w' ≠ w := fun he =>
          (List.nodup_cons.mp hnd).1 (he ▸ hw')
        rw [scaleOne_sumWeightOn_other bs w w' _ hne2]
        exact ⟨hl', hn'⟩
      have hmain := ih (bs.map (fun b =>
          if b.curCandidate == w then
            { b with voteRemaining := b.voteRemaining *
                ((totalLookup totals w - thr) / totalLookup totals w) }
          else b)) (List.nodup_cons.mp hnd).2 hws2
      show totalWeight (scaleWinnerBallots thr totals rest (bs.map (fun b =>
          if b.curCandidate == w then
            { b with voteRemaining := b.voteRemaining *
                ((totalLookup totals w - thr) / totalLookup totals w) }
          else b))) = totalWeight bs - thr * (((w :: rest).length : ℚ))
      rw [hmain, hstep]
      push_cast [List.length_cons]
      ring

theorem roundSettled_totalWeight (t : Tabulation) :
    totalWeight (roundSettled t) = totalWeight t.ballots := by
  unfold roundSettled
  exact settleAll_totalWeight _ _

theorem tabulateRound_conservation (rules : TabulatorRules)
    (t : Tabulation) (h : TabInv t) :
    ∃ r, (tabulateRound rules t).rounds = t.rounds ++ [r] ∧
      totalWeight (tabulateRound rules t).ballots
        = totalWeight t.ballots - t.threshold * r.winners.length := by
  by_cases hW : (selectWinners (roundRec0 t)).isEmpty = true
  · refine ⟨{ roundRec0 t with losers := selectLosers rules (roundRec0 t) },
      ?_, ?_⟩
    · unfold tabulateRound
      rw [if_pos hW]
    · unfold tabulateRound
      rw [if_pos hW]
      show totalWeight (transferBallots _ _ (roundSettled t)) = _
      rw [transferBallots_totalWeight, roundSettled_totalWeight]
      show totalWeight t.ballots
        = totalWeight t.ballots - t.threshold * ((roundRec0 t).winners.length : ℚ)
      simp [roundRec0]
  · refine ⟨{ roundRec0 t with winners := selectWinners (roundRec0 t) },
      ?_, ?_⟩
    · unfold tabulateRound
      rw [if_neg hW]
    · unfold tabulateRound
      rw [if_neg hW]
      have hnd : (selectWinners (roundRec0 t)).Nodup := by
        rw [selectWinners_roundRec0]
        exact (tallyKeys_nodup _).filter _
      have hws : ∀ w ∈ selectWinners (roundRec0 t),
          totalLookup (roundRec0 t).vote_totals w
            = sumWeightOn (roundSettled t) w ∧
          totalLookup (roundRec0 t).vote_totals w ≠ 0 := by
        intro w hw
        obtain ⟨hk, hlt, hpos, hlook⟩ := selectWinners_facts t h w hw
        have hwex : w ≠ exhaustedLab :=
          (tallyKeys_roundSettled_facts t h w hk).1
        constructor
        · rw [show totalLookup (roundRec0 t).vote_totals w
              = totalLookup (roundTotals (roundSettled t)) w from rfl, hlook,
            sumWeightOn_eq_tallyTotal _ _ hwex]
        · rw [show totalLookup (roundRec0 t).vote_totals w
              = totalLookup (roundTotals (roundSettled t)) w from rfl, hlook]
          exact ne_of_gt hpos
      show totalWeight (transferBallots _ _
          (scaleWinnerBallots t.threshold (roundRec0 t).vote_totals
            (selectWinners (roundRec0 t)) (roundSettled t))) = _
      rw [transferBallots_totalWeight,
        scaleWinnerBallots_totalWeight t.threshold _ _ _ hnd hws,
        roundSettled_totalWeight]

/-! ## Loser selection characterised -/

theorem cumSelect_nil_of_ge (thr : ℚ) :
    ∀ (l : List (String × ℚ)) (acc : ℚ),
      (∀ p ∈ l, 0 ≤ p.2) → thr ≤ acc → cumSelect thr acc l = []
  | [], _, _, _ => rfl
  | p :: rest, acc, hnn, hge => by
      rw [cumSelect]
      have h2 : thr ≤ acc + p.2 :=
        le_trans hge (by linarith [hnn p (List.mem_cons_self p rest)])
      rw [if_neg (not_lt.mpr h2), List.nil_append]
      exact cumSelect_nil_of_ge thr rest (acc + p.2)
        (fun q hq => hnn q (List.mem_cons_of_mem p hq)) h2

theorem cumSelect_prefix (thr : ℚ) :
    ∀ (l : List (String × ℚ)) (acc : ℚ), (∀ p ∈ l, 0 ≤ p.2) →
    ∃ k, cumSelect thr acc l = (l.map Prod.fst).take k ∧ k ≤ l.length ∧
      (0 < k → acc + ((l.take k).map Prod.snd).sum < thr) ∧
      (k < l.length → thr ≤ acc + ((l.take (k + 1)).map Prod.snd).sum)
  | [], acc, hnn =>
      ⟨0, rfl, Nat.le_refl 0, fun h => absurd h (by simp),
        fun h => absurd h (by simp)⟩
  | p :: rest, acc, hnn => by
      by_cases hlt : acc + p.2 < thr
      · obtain ⟨k, hEq, hklen, hsel, hmax⟩ :=
          cumSelect_prefix thr rest (acc + p.2)
            (fun q hq => hnn q (List.mem_cons_of_mem p hq))
        refine ⟨k + 1, ?_, by simpa using Nat.succ_le_succ hklen, ?_, ?_⟩
        · rw [cumSelect, if_pos hlt, hEq, List.map_cons, List.take_succ_cons]
          rfl
        · intro _
          rw [List.take_succ_cons, List.map_cons, List.sum_cons]
          rcases Nat.eq_zero_or_pos k with hk0 | hk0
          · rw [hk0]
            simpa using hlt
          · have := hsel hk0
            linarith
        · intro hlen
          have hlen2 : k < rest.length := by simpa using hlen
          have := hmax hlen2
          rw [List.take_succ_cons, List.map_cons, List.sum_cons]
          linarith
      · refine ⟨0, ?_, Nat.zero_le _, fun h => absurd h (by omega), ?_⟩
        · rw [cumSelect, if_neg hlt, List.nil_append, List.take_zero]
          exact cumSelect_nil_of_ge thr rest (acc + p.2)
            (fun q hq => hnn q (List.mem_cons_of_mem p hq)) (not_lt.mp hlt)
        · intro _
          rw [List.take_succ_cons, List.take_zero, List.map_cons,
            List.map_nil, List.sum_cons, List.sum_nil, add_zero]
          exact not_lt.mp hlt

theorem cumMask_all_false (thr : ℚ) :
    ∀ (l : List (String × ℚ)) (acc : ℚ),
      (∀ p ∈ l, 0 ≤ p.2) → thr ≤ acc →
      cumMask thr acc l = List.replicate l.length false
  | [], _, _, _ => rfl
  | p :: rest, acc, hnn, hge => by
      rw [cumMask]
      have h2 : thr ≤ acc + p.2 :=
        le_trans hge (by linarith [hnn p (List.mem_cons_self p rest)])
      rw [List.length_cons, List.replicate_succ]
      rw [decide_eq_false (not_lt.mpr h2)]
      rw [cumMask_all_false thr rest (acc + p.2)
        (fun q hq => hnn q (List.mem_cons_of_mem p hq)) h2]

theorem cumMask_prefix_shape (thr : ℚ) :
    ∀ (l : List (String × ℚ)) (acc : ℚ), (∀ p ∈ l, 0 ≤ p.2) →
    ∃ m, m ≤ l.length ∧
      cumMask thr acc l
        = List.replicate m true ++ List.replicate (l.length - m) false ∧
      (0 < m → acc + ((l.take m).map Prod.snd).sum < thr) ∧
      (m < l.length → thr ≤ acc + ((l.take (m + 1)).map Prod.snd).sum)
  | [], acc, hnn =>
      ⟨0, Nat.le_refl 0, rfl, fun h => absurd h (by simp),
        fun h => absurd h (by simp)⟩
  | p :: rest, acc, hnn => by
      by_cases hlt : acc + p.2 < thr
      · obtain ⟨m, hmlen, hEq, hsel, hmax⟩ :=
          cumMask_prefix_shape thr rest (acc + p.2)
            (fun q hq => hnn q (List.mem_cons_of_mem p hq))
        refine ⟨m + 1, by simpa using Nat.succ_le_succ hmlen, ?_, ?_, ?_⟩
        · rw [cumMask, decide_eq_true hlt, hEq, List.length_cons,
            Nat.succ_sub_succ, List.replicate_succ, List.cons_append]
        · intro _
          rw [List.take_succ_cons, List.map_cons, List.sum_cons]
          rcases Nat.eq_zero_or_pos m with hm0 | hm0
          · rw [hm0]
            simpa using hlt
          · have := hsel hm0
            linarith
        · intro hlen
          have hlen2 : m < rest.length := by simpa using hlen
          have := hmax hlen2
          rw [List.take_succ_cons, List.map_cons, List.sum_cons]
          linarith
      · refine ⟨0, Nat.zero_le _, ?_, fun h => absurd h (by omega), ?_⟩
        · rw [cumMask, decide_eq_false hlt, List.length_cons,
            Nat.sub_zero, List.replicate_zero, List.nil_append,
            List.replicate_succ]
          rw [cumMask_all_false thr rest (acc + p.2)
            (fun q hq => hnn q (List.mem_cons_of_mem p hq)) (not_lt.mp hlt)]
        · intro _
          rw [List.take_succ_cons, List.take_zero, List.map_cons,
            List.map_nil, List.sum_cons, List.sum_nil, add_zero]
          exact not_lt.mp hlt

theorem maskSelect_all_false : ∀ (ks : List String) (j : Nat),
    maskSelect ks (List.replicate j false) = []
  | [], j => by cases j <;> rfl
  | k :: ks, 0 => rfl
  | k :: ks, j + 1 => by
      rw [List.replicate_succ, maskSelect, if_neg (by simp)]
      exact maskSelect_all_false ks j

theorem maskSelect_take : ∀ (m j : Nat) (ks : List String),
    ks.length = m + j →
    maskSelect ks (List.replicate m true ++ List.replicate j false)
      = ks.take m
  | 0, j, ks => by
      intro hlen
      rw [List.replicate_zero, List.nil_append, List.take_zero]
      exact maskSelect_all_false ks j
  | m + 1, j, [] => by
      intro hlen
      simp only [List.length_nil] at hlen
      omega
  | m + 1, j, k :: ks => by
      intro hlen
      rw [List.replicate_succ, List.cons_append, maskSelect, if_pos rfl,
        List.take_succ_cons]
      rw [maskSelect_take m j ks (by
        simp only [List.length_cons] at hlen
        omega)]

/-- The batch branch of `select_losers`, characterised: it eliminates the
first `m` keys of the tally *in ascending key order*, where `m` is the length
of the maximal prefix of the *value-sorted* series whose cumulative total
stays below the threshold. -/
theorem selectLosers_batch (rules : TabulatorRules)
    (round : TabulationRound) (hb : rules.batch_elimination = true)
    (hnn : ∀ p ∈ round.vote_totals, 0 ≤ p.2) :
    ∃ m, m ≤ round.vote_totals.length ∧
      selectLosers rules round = (round.vote_totals.map Prod.fst).take m ∧
      (0 < m →
        (((sortByVotes round.vote_totals).take m).map Prod.snd).sum
          < round.vote_threshold) ∧
      (m < round.vote_totals.length →
        round.vote_threshold ≤
          (((sortByVotes round.vote_totals).take (m + 1)).map
            Prod.snd).sum) := by
  have hnn2 : ∀ p ∈ sortByVotes round.vote_totals, 0 ≤ p.2 := fun p hp =>
    hnn p ((sortByVotes_perm round.vote_totals).mem_iff.mp hp)
  obtain ⟨m, hmlen, hmask, hsel, hmax⟩ :=
    cumMask_prefix_shape round.vote_threshold
      (sortByVotes round.vote_totals) 0 hnn2
  have hlen : (sortByVotes round.vote_totals).length
      = round.vote_totals.length :=
    (sortByVotes_perm round.vote_totals).length_eq
  refine ⟨m, by omega, ?_, ?_, ?_⟩
  · unfold selectLosers
    rw [if_pos hb, hmask]
    exact maskSelect_take m _ _ (by rw [List.length_map]; omega)
  · intro h
    have := hsel h
    rwa [zero_add] at this
  · intro h
    have := hmax (by omega)
    rwa [zero_add] at this

theorem selectLosers_mode_free (rules1 rules2 : TabulatorRules)
    (round : TabulationRound)
    (hb : rules1.batch_elimination = rules2.batch_elimination) :
    selectLosers rules1 round = selectLosers rules2 round := by
  unfold selectLosers
  rw [hb]

theorem selectLosers_single (rules : TabulatorRules)
    (round : TabulationRound) (bs : List BallotState)
    (hb : rules.batch_elimination = false)
    (hv : round.vote_totals = roundTotals bs)
    (hne : tallyKeys bs ≠ []) :
    ∃ c, selectLosers rules round = [c] ∧ c ∈ tallyKeys bs ∧
      ∀ d ∈ tallyKeys bs, tallyTotal bs c ≤ tallyTotal bs d := by
  unfold selectLosers
  rw [if_neg (by rw [hb]; exact Bool.false_ne_true), hv]
  have hne2 : sortByVotes (roundTotals bs) ≠ [] := by
    intro h0
    apply hne
    have hlen := (sortByVotes_perm (roundTotals bs)).length_eq
    rw [h0] at hlen
    simp only [List.length_nil] at hlen
    have hlen2 : (roundTotals bs).length = (tallyKeys bs).length :=
      List.length_map _ _
    exact List.eq_nil_of_length_eq_zero (by omega)
  obtain ⟨p, ps, hps⟩ := List.exists_cons_of_ne_nil hne2
  have hpmem : p ∈ roundTotals bs :=
    (sortByVotes_perm (roundTotals bs)).mem_iff.mp
      (hps ▸ List.mem_cons_self p ps)
  obtain ⟨hpk, hpv⟩ := (mem_roundTotals bs p).mp hpmem
  refine ⟨p.1, ?_, hpk, ?_⟩
  · rw [hps, List.map_cons, List.take_succ_cons, List.take_zero]
  · intro d hd
    have hdmem : ((d, tallyTotal bs d) : String × ℚ) ∈ roundTotals bs :=
      (mem_roundTotals bs (d, tallyTotal bs d)).mpr ⟨hd, rfl⟩
    have hdmem2 : ((d, tallyTotal bs d) : String × ℚ) ∈ p :: ps :=
      hps ▸ (sortByVotes_perm (roundTotals bs)).symm.mem_iff.mp hdmem
    have hsorted : (p :: ps).Sorted (fun a b : String × ℚ => a.2 ≤ b.2) :=
      hps ▸ sortByVotes_sorted (roundTotals bs)
    rcases List.mem_cons.mp hdmem2 with hcase | hcase
    · rw [← hpv]
      have : p.2 = tallyTotal bs d := by rw [← hcase]
      rw [this]
    · have hrel := List.rel_of_sorted_cons hsorted _ hcase
      rw [← hpv]
      exact hrel

/-! ## Concrete example runs -/

def exBallotsA : List (List String) := [["A"], ["A"], ["B"]]

def exRulesA : TabulatorRules :=
  { tiebreak_mode := TiebreakMode.USE_CANDIDATE_ORDER
    overvote_rule := OvervoteRule.ALWAYS_SKIP_TO_NEXT_RANK
    winner_election_mode := WinnerElectionMode.BOTTOMS_UP
    random_seed := none
    number_of_winners := 1
    decimal_places_for_vote_arithmetic := -1
    minimum_vote_threshold := none
    max_skipped_ranks_allowed := 1
    max_rankings_allowed := none
    non_integer_winning_threshold := false
    hare_quota := false
    batch_elimination := false
    exhaust_on_duplicate_candidate := false
    rules_description := "" }

def exBA : List BallotState := [⟨["A"], 0, 1⟩, ⟨["A"], 0, 1⟩, ⟨["B"], 0, 1⟩]

theorem exA_start : tabulateStart exBallotsA =
    { ballots := exBA, threshold := 0, winners := [], losers := [],
      rounds := [] } := by
  unfold tabulateStart
  have h : settleAll ([] ++ []) (initialBallots exBallotsA) = exBA := by decide
  rw [h]

theorem exA_totA : tallyTotal exBA "A" = 2 := by
  have h : exBA.filter (fun b => !b.isExhausted && b.curCandidate == "A")
      = [⟨["A"], 0, 1⟩, ⟨["A"], 0, 1⟩] := by decide
  rw [tallyTotal, h]
  norm_num

theorem exA_totB : tallyTotal exBA "B" = 1 := by
  have h : exBA.filter (fun b => !b.isExhausted && b.curCandidate == "B")
      = [⟨["B"], 0, 1⟩] := by decide
  rw [tallyTotal, h]
  norm_num

theorem exA_keys : tallyKeys exBA = ["A", "B"] := by decide

theorem exA_sum : tallySum exBA = 3 := by
  rw [tallySum, exA_keys, List.map_cons, List.map_cons, List.map_nil,
    exA_totA, exA_totB]
  norm_num

theorem exA_calc : thresholdCalc exRulesA (tabulateStart exBallotsA) = 3/2 := by
  rw [exA_start]
  unfold thresholdCalc
  rw [if_neg (by decide)]
  show tallySum exBA / _ = _
  rw [exA_sum]
  norm_num [exRulesA]

theorem exA_init : tabulateInit exRulesA exBallotsA =
    { ballots := exBA, threshold := 2, winners := [], losers := [],
      rounds := [] } := by
  unfold tabulateInit
  rw [exA_calc, exA_start]
  have hceil : (⌈(3:ℚ)/2⌉ : ℤ) = 2 := by
    rw [Int.ceil_eq_iff]; norm_num
  rw [hceil]
  norm_num

def exBA1 : List BallotState := [⟨["A"], 0, 1⟩, ⟨["A"], 0, 1⟩, ⟨["B"], 1, 1⟩]

def exRoundA1 : TabulationRound :=
  { round_number := 1, vote_threshold := 2,
    vote_totals := [("A", 2), ("B", 1)], winners := [], losers := ["B"] }

theorem exA_totals : roundTotals exBA = [("A", 2), ("B", 1)] := by
  rw [roundTotals, exA_keys, List.map_cons, List.map_cons, List.map_nil,
    exA_totA, exA_totB]

theorem exA_round1 : tabulateRound exRulesA
    { ballots := exBA, threshold := 2, winners := [], losers := [],
      rounds := [] }
    = { ballots := exBA1, threshold := 2, winners := [], losers := ["B"],
        rounds := [exRoundA1] } := by
  have hr0 : roundRec0
      { ballots := exBA, threshold := 2, winners := [], losers := [],
        rounds := [] }
      = { round_number := 1, vote_threshold := 2,
          vote_totals := [("A", 2), ("B", 1)], winners := [], losers := [] } := by
    unfold roundRec0
    rw [show roundSettled
        { ballots := exBA, threshold := 2, winners := [], losers := [],
          rounds := [] } = exBA from by decide, exA_totals]
    decide
  unfold tabulateRound
  rw [hr0]
  decide

def exBA2 : List BallotState := [⟨["A"], 1, 1⟩, ⟨["A"], 1, 1⟩, ⟨["B"], 1, 1⟩]

def exRoundA2 : TabulationRound :=
  { round_number := 2, vote_threshold := 2, vote_totals := [("A", 2)],
    winners := [], losers := ["A"] }

theorem exA1_totA : tallyTotal exBA1 "A" = 2 := by
  have h : exBA1.filter (fun b => !b.isExhausted && b.curCandidate == "A")
      = [⟨["A"], 0, 1⟩, ⟨["A"], 0, 1⟩] := by decide
  rw [tallyTotal, h]
  norm_num

theorem exA1_totals : roundTotals exBA1 = [("A", 2)] := by
  rw [roundTotals, show tallyKeys exBA1 = ["A"] from by decide,
    List.map_cons, List.map_nil, exA1_totA]

theorem exA_round2 : tabulateRound exRulesA
    { ballots := exBA1, threshold := 2, winners := [], losers := ["B"],
      rounds := [exRoundA1] }
    = { ballots := exBA2, threshold := 2, winners := [],
        losers := ["B", "A"], rounds := [exRoundA1, exRoundA2] } := by
  have hr0 : roundRec0
      { ballots := exBA1, threshold := 2, winners := [], losers := ["B"],
        rounds := [exRoundA1] }
      = { round_number := 2, vote_threshold := 2,
          vote_totals := [("A", 2)], winners := [], losers := [] } := by
    unfold roundRec0
    rw [show roundSettled
        { ballots := exBA1, threshold := 2, winners := [], losers := ["B"],
          rounds := [exRoundA1] } = exBA1 from by decide, exA1_totals]
    decide
  unfold tabulateRound
  rw [hr0]
  decide

theorem exA_steps2 : tabulateSteps exRulesA 2 (tabulateInit exRulesA exBallotsA)
    = { ballots := exBA2, threshold := 2, winners := [],
        losers := ["B", "A"], rounds := [exRoundA1, exRoundA2] } := by
  rw [exA_init]
  have h1 : tabulateSteps exRulesA 2
      { ballots := exBA, threshold := 2, winners := [], losers := [],
        rounds := [] }
      = tabulateSteps exRulesA 1 (tabulateRound exRulesA
        { ballots := exBA, threshold := 2, winners := [], losers := [],
          rounds := [] }) := rfl
  rw [h1, exA_round1]
  have h2 : tabulateSteps exRulesA 1
      { ballots := exBA1, threshold := 2, winners := [], losers := ["B"],
        rounds := [exRoundA1] }
      = tabulateSteps exRulesA 0 (tabulateRound exRulesA
        { ballots := exBA1, threshold := 2, winners := [], losers := ["B"],
          rounds := [exRoundA1] }) := rfl
  rw [h2, exA_round2]
  rfl

/-! ## Composing loop iterations -/

theorem tabulateSteps_stop (rules : TabulatorRules) (n : Nat)
    (t : Tabulation)
    (h : ¬ t.winners.length < rules.number_of_winners) :
    tabulateSteps rules n t = t := by
  cases n with
  | zero => rfl
  | succ n => rw [tabulateSteps, if_neg h]

theorem tabulateSteps_add (rules : TabulatorRules) (m k : Nat)
    (t : Tabulation) :
    tabulateSteps rules (m + k) t
      = tabulateSteps rules k (tabulateSteps rules m t) := by
  induction m generalizing t with
  | zero => rw [Nat.zero_add]; rfl
  | succ m ih =>
      rw [Nat.succ_add]
      by_cases hg : t.winners.length < rules.number_of_winners
      · rw [show tabulateSteps rules (m + k + 1) t
            = tabulateSteps rules (m + k) (tabulateRound rules t) from by
              rw [tabulateSteps, if_pos hg],
          show tabulateSteps rules (m + 1) t
            = tabulateSteps rules m (tabulateRound rules t) from by
              rw [tabulateSteps, if_pos hg],
          ih]
      · rw [show tabulateSteps rules (m + k + 1) t = t from by
            rw [tabulateSteps, if_neg hg],
          show tabulateSteps rules (m + 1) t = t from by
            rw [tabulateSteps, if_neg hg],
          tabulateSteps_stop rules k t hg]

/-! ## A run on which the loop never terminates -/

def exBallotsF : List (List String) := [["A"], ["B"]]

def exRulesF : TabulatorRules :=
  { exRulesA with batch_elimination := true }

def exBF : List BallotState := [⟨["A"], 0, 1⟩, ⟨["B"], 0, 1⟩]

theorem exF_totA : tallyTotal exBF "A" = 1 := by
  have h : exBF.filter (fun b => !b.isExhausted && b.curCandidate == "A")
      = [⟨["A"], 0, 1⟩] := by decide
  rw [tallyTotal, h]
  norm_num

theorem exF_totB : tallyTotal exBF "B" = 1 := by
  have h : exBF.filter (fun b => !b.isExhausted && b.curCandidate == "B")
      = [⟨["B"], 0, 1⟩] := by decide
  rw [tallyTotal, h]
  norm_num

theorem exF_totals : roundTotals exBF = [("A", 1), ("B", 1)] := by
  rw [roundTotals, show tallyKeys exBF = ["A", "B"] from by decide,
    List.map_cons, List.map_cons, List.map_nil, exF_totA, exF_totB]

theorem exF_sum : tallySum exBF = 2 := by
  rw [tallySum, show tallyKeys exBF = ["A", "B"] from by decide,
    List.map_cons, List.map_cons, List.map_nil, exF_totA, exF_totB]
  norm_num

theorem exF_start : tabulateStart exBallotsF =
    { ballots := exBF, threshold := 0, winners := [], losers := [],
      rounds := [] } := by
  unfold tabulateStart
  have h : settleAll ([] ++ []) (initialBallots exBallotsF) = exBF := by decide
  rw [h]

theorem exF_calc : thresholdCalc exRulesF (tabulateStart exBallotsF) = 1 := by
  rw [exF_start]
  unfold thresholdCalc
  rw [if_neg (by decide)]
  show tallySum exBF / _ = _
  rw [exF_sum]
  norm_num [exRulesF, exRulesA]

theorem exF_init : tabulateInit exRulesF exBallotsF =
    { ballots := exBF, threshold := 1, winners := [], losers := [],
      rounds := [] } := by
  unfold tabulateInit
  rw [exF_calc, exF_start]
  have hceil : (⌈(1:ℚ)⌉ : ℤ) = 1 := by
    rw [Int.ceil_eq_iff]; norm_num
  rw [hceil]
  norm_num

theorem exF_stuck (rs : List TabulationRound) :
    tabulateRound exRulesF
      { ballots := exBF, threshold := 1, winners := [], losers := [],
        rounds := rs }
    = { ballots := exBF, threshold := 1, winners := [], losers := [],
        rounds := rs ++ [({ round_number := 1 + rs.length
                            vote_threshold := 1
                            vote_totals := [("A", 1), ("B", 1)]
                            winners := []
                            losers := [] } : TabulationRound)] } := by
  have hset : roundSettled
      { ballots := exBF, threshold := 1, winners := [], losers := [],
        rounds := rs } = exBF := by
    show settleAll ([] ++ []) exBF = exBF
    decide
  have hr0 : roundRec0
      { ballots := exBF, threshold := 1, winners := [], losers := [],
        rounds := rs }
      = { round_number := 1 + rs.length, vote_threshold := 1,
          vote_totals := [("A", 1), ("B", 1)], winners := [],
          losers := [] } := by
    unfold roundRec0
    rw [hset, exF_totals]
  unfold tabulateRound
  rw [hr0]
  have hW : selectWinners
      { round_number := 1 + rs.length, vote_threshold := 1,
        vote_totals := [("A", 1), ("B", 1)], winners := [],
        losers := ([] : List String) } = [] := by
    unfold selectWinners
    rw [show List.filter (fun p => decide ((1:ℚ) < p.2))
        [("A", (1:ℚ)), ("B", 1)] = [] from by decide]
    rfl
  rw [hW]
  rw [if_pos (show ([] : List String).isEmpty = true from rfl)]
  have hL : selectLosers exRulesF
      { round_number := 1 + rs.length, vote_threshold := 1,
        vote_totals := [("A", 1), ("B", 1)], winners := [],
        losers := ([] : List String) } = [] := by
    unfold selectLosers
    rw [if_pos (by decide)]
    rw [show sortByVotes [("A", (1:ℚ)), ("B", 1)] = [("A", 1), ("B", 1)]
      from by decide]
    rw [cumMask, cumMask, cumMask,
      decide_eq_false (by norm_num : ¬((0:ℚ) + 1 < 1)),
      decide_eq_false (by norm_num : ¬((0:ℚ) + 1 + 1 < 1))]
    rfl
  rw [hL]
  rfl

theorem exF_loop : ∀ (n : Nat) (rs : List TabulationRound),
    (tabulateSteps exRulesF n
      { ballots := exBF, threshold := 1, winners := [], losers := [],
        rounds := rs }).winners = [] ∧
    (tabulateSteps exRulesF n
      { ballots := exBF, threshold := 1, winners := [], losers := [],
        rounds := rs }).rounds.length = rs.length + n
  | 0, rs => ⟨rfl, rfl⟩
  | n + 1, rs => by
      rw [tabulateSteps, if_pos (show
          ({ ballots := exBF
             threshold := 1
             winners := []
             losers := []
             rounds := rs } : Tabulation).winners.length
            < exRulesF.number_of_winners from Nat.zero_lt_one),
        exF_stuck rs]
      obtain ⟨h1, h2⟩ := exF_loop n (rs ++
        [({ round_number := 1 + rs.length
            vote_threshold := 1
            vote_totals := [("A", 1), ("B", 1)]
            winners := []
            losers := [] } : TabulationRound)])
      refine ⟨h1, ?_⟩
      rw [h2, List.length_append]
      simp
      omega

/-! ## A run that elects a winner in round one -/

def exRulesD : TabulatorRules :=
  { exRulesA with number_of_winners := 2 }

def exBD1 : List BallotState :=
  [⟨["A"], 1, mkRat 1 2⟩, ⟨["A"], 1, mkRat 1 2⟩, ⟨["B"], 0, 1⟩]

def exRoundD1 : TabulationRound :=
  { round_number := 1, vote_threshold := 1,
    vote_totals := [("A", 2), ("B", 1)], winners := ["A"], losers := [] }

theorem exD_calc : thresholdCalc exRulesD (tabulateStart exBallotsA) = 1 := by
  rw [exA_start]
  unfold thresholdCalc
  rw [if_neg (by decide)]
  show tallySum exBA / _ = _
  rw [exA_sum]
  norm_num [exRulesD, exRulesA]

theorem exD_init : tabulateInit exRulesD exBallotsA =
    { ballots := exBA, threshold := 1, winners := [], losers := [],
      rounds := [] } := by
  unfold tabulateInit
  rw [exD_calc, exA_start]
  have hceil : (⌈(1:ℚ)⌉ : ℤ) = 1 := by
    rw [Int.ceil_eq_iff]; norm_num
  rw [hceil]
  norm_num

theorem exD_hr0 : roundRec0
    { ballots := exBA, threshold := 1, winners := [], losers := [],
      rounds := [] }
    = { round_number := 1, vote_threshold := 1,
        vote_totals := [("A", 2), ("B", 1)], winners := [], losers := [] } := by
  unfold roundRec0
  rw [show roundSettled
      { ballots := exBA, threshold := 1, winners := [], losers := [],
        rounds := [] } = exBA from by decide, exA_totals]
  decide

theorem exD_scale : scaleWinnerBallots 1 [("A", 2), ("B", 1)] ["A"] exBA
    = [⟨["A"], 0, mkRat 1 2⟩, ⟨["A"], 0, mkRat 1 2⟩, ⟨["B"], 0, 1⟩] := by
  unfold scaleWinnerBallots
  rw [List.foldl_cons, List.foldl_nil,
    show totalLookup [("A", (2:ℚ)), ("B", 1)] "A" = 2 from by decide]
  show exBA.map _ = _
  rw [show exBA = [⟨["A"], 0, 1⟩, ⟨["A"], 0, 1⟩, ⟨["B"], 0, 1⟩] from rfl,
    List.map_cons, List.map_cons, List.map_cons, List.map_nil]
  rw [if_pos (show (BallotState.curCandidate ⟨["A"], 0, 1⟩ == "A") = true
      from by decide),
    if_neg (show ¬ ((BallotState.curCandidate ⟨["B"], 0, 1⟩ == "A") = true)
      from by decide)]
  norm_num [Rat.mkRat_eq_div]

theorem exD_round1 : tabulateRound exRulesD
    { ballots := exBA, threshold := 1, winners := [], losers := [],
      rounds := [] }
    = { ballots := exBD1, threshold := 1, winners := ["A"], losers := [],
        rounds := [exRoundD1] } := by
  unfold tabulateRound
  rw [exD_hr0]
  rw [show selectWinners
      { round_number := 1, vote_threshold := 1,
        vote_totals := [("A", 2), ("B", 1)], winners := [],
        losers := ([] : List String) } = ["A"] from by decide]
  rw [if_neg (show ¬ ((["A"] : List String).isEmpty = true) from by decide)]
  show _ = _
  rw [show roundSettled
      { ballots := exBA, threshold := 1, winners := [], losers := [],
        rounds := [] } = exBA from by decide]
  rw [exD_scale]
  decide

theorem exA_steps1 : tabulateSteps exRulesA 1 (tabulateInit exRulesA exBallotsA)
    = { ballots := exBA1, threshold := 2, winners := [], losers := ["B"],
        rounds := [exRoundA1] } := by
  rw [exA_init]
  have h1 : tabulateSteps exRulesA 1
      { ballots := exBA, threshold := 2, winners := [], losers := [],
        rounds := [] }
      = tabulateSteps exRulesA 0 (tabulateRound exRulesA
        { ballots := exBA, threshold := 2, winners := [], losers := [],
          rounds := [] }) := rfl
  rw [h1, exA_round1]
  rfl

theorem exD_steps1 : tabulateSteps exRulesD 1 (tabulateInit exRulesD exBallotsA)
    = { ballots := exBD1, threshold := 1, winners := ["A"], losers := [],
        rounds := [exRoundD1] } := by
  rw [exD_init]
  have h1 : tabulateSteps exRulesD 1
      { ballots := exBA, threshold := 1, winners := [], losers := [],
        rounds := [] }
      = tabulateSteps exRulesD 0 (tabulateRound exRulesD
        { ballots := exBA, threshold := 1, winners := [], losers := [],
          rounds := [] }) := rfl
  rw [h1, exD_round1]
  rfl

/-! ## Two configurations differing only in tiebreak machinery -/

def exRulesT : TabulatorRules :=
  { exRulesA with tiebreak_mode := TiebreakMode.RANDOM
                  random_seed := some 42 }

theorem exT_calc : thresholdCalc exRulesT (tabulateStart exBallotsF) = 1 := by
  rw [exF_start]
  unfold thresholdCalc
  rw [if_neg (by decide)]
  show tallySum exBF / _ = _
  rw [exF_sum]
  norm_num [exRulesT, exRulesA]

theorem exT_init : tabulateInit exRulesT exBallotsF =
    { ballots := exBF, threshold := 1, winners := [], losers := [],
      rounds := [] } := by
  unfold tabulateInit
  rw [exT_calc, exF_start]
  have hceil : (⌈(1:ℚ)⌉ : ℤ) = 1 := by
    rw [Int.ceil_eq_iff]; norm_num
  rw [hceil]
  norm_num

theorem exAF_calc : thresholdCalc exRulesA (tabulateStart exBallotsF) = 1 := by
  rw [exF_start]
  unfold thresholdCalc
  rw [if_neg (by decide)]
  show tallySum exBF / _ = _
  rw [exF_sum]
  norm_num [exRulesA]

theorem exAF_init : tabulateInit exRulesA exBallotsF =
    { ballots := exBF, threshold := 1, winners := [], losers := [],
      rounds := [] } := by
  unfold tabulateInit
  rw [exAF_calc, exF_start]
  have hceil : (⌈(1:ℚ)⌉ : ℤ) = 1 := by
    rw [Int.ceil_eq_iff]; norm_num
  rw [hceil]
  norm_num

theorem exBF_hr0 : roundRec0
    { ballots := exBF, threshold := 1, winners := [], losers := [],
      rounds := [] }
    = { round_number := 1, vote_threshold := 1,
        vote_totals := [("A", 1), ("B", 1)], winners := [], losers := [] } := by
  unfold roundRec0
  rw [show roundSettled
      { ballots := exBF, threshold := 1, winners := [], losers := [],
        rounds := [] } = exBF from by decide, exF_totals]
  decide

theorem exA1_sum : tallySum exBA1 = 2 := by
  rw [tallySum, show tallyKeys exBA1 = ["A"] from by decide,
    List.map_cons, List.map_nil, exA1_totA]
  norm_num

def exRulesB : TabulatorRules :=
  { exRulesA with non_integer_winning_threshold := true }

theorem exB_calc : thresholdCalc exRulesB (tabulateStart exBallotsA) = 3/2 := by
  rw [exA_start]
  unfold thresholdCalc
  rw [if_neg (by decide)]
  show tallySum exBA / _ = _
  rw [exA_sum]
  norm_num [exRulesB, exRulesA]

theorem exB_init : tabulateInit exRulesB exBallotsA =
    { ballots := exBA, threshold := 2, winners := [], losers := [],
      rounds := [] } := by
  unfold tabulateInit
  rw [exB_calc, exA_start]
  have hceil : (⌈(3:ℚ)/2⌉ : ℤ) = 2 := by
    rw [Int.ceil_eq_iff]; norm_num
  rw [hceil]
  norm_num

/-! ## The broken numeric pipeline, embedded with its exceptions

The definitions above embed the round engine — the computation the source
*attempts* downstream of its numeric plumbing.  The plumbing itself cannot
execute, and the following definitions embed that faithfully: fallible code
returns `Except`. -/

/-- Python exceptions raised by the numeric-model code of `config.py`. -/
inductive PyExc where
  | nameError
  | attributeError
  | divisionByZero
deriving Repr, DecidableEq

/-- The attribute `TabulatorRules.T` as the source actually defines it.  The
`functools.cached_property T` at config.py line 253 is declared after — and
therefore shadows — the `@property T` at line 188; its body is
`return arithmetic.type`, and `arithmetic` is an unbound name (the instance
attribute would be `self.arithmetic`), so every access raises `NameError`,
for every rules value. -/
def TabulatorRules.T (_ : TabulatorRules) : Except PyExc Unit :=
  Except.error PyExc.nameError

/-- `DecimalArithmetic.div` (config.py lines 269-274): the body is the bare
expression `(self.T(v1) / self.T(v2)).quantize(self.places,
context=self.context)`.  The `Decimal` division raises `DivisionByZero` when
`v2` is zero; otherwise evaluating the keyword argument `self.context` runs
the `context` property, whose body `self.Context(rounding=...)` reads the
nonexistent attribute `Context` of `DecimalArithmetic` and raises
`AttributeError`.  (The method also has no `return` statement, so even
without the exceptions no value would be produced; conversion errors of
`Decimal(v)` on non-decimal inputs would only raise earlier.)  Every call
raises. -/
def DecimalArithmetic.div (places : Int) (v1 v2 : ℚ) : Except PyExc ℚ :=
  if v2 = 0 then Except.error PyExc.divisionByZero
  else Except.error PyExc.attributeError

/-- `TabulatorRules.threshold` (config.py lines 199-206) with its exceptions:
`eligible_votes` and `remaining_winners` evaluate, `T = self.arithmetic.T`
is `decimal.Decimal`, and both quota branches return
`self.arithmetic.div(...)`, which always raises (see
`DecimalArithmetic.div`).  `thresholdCalc` states the quotient this code
attempts; this definition records that the attempt never returns. -/
def TabulatorRules.threshold (rules : TabulatorRules) (t : Tabulation) :
    Except PyExc ℚ :=
  let eligible_votes := tallySum t.ballots
  let remaining_winners : ℚ :=
    (rules.number_of_winners : ℚ) - (t.winners.length : ℚ)
  if rules.hare_quota then
    DecimalArithmetic.div rules.decimal_places_for_vote_arithmetic
      eligible_votes remaining_winners
  else
    DecimalArithmetic.div rules.decimal_places_for_vote_arithmetic
      eligible_votes (1 + remaining_winners)

/-- `Tabulator.tabulate` with the source's exceptions made explicit.  Its
first statement `T = self.rules.T` (tabulate.py line 136) raises `NameError`
(see `TabulatorRules.T`).  Had it returned, line 145's
`tabulation.threshold = T(math.ceil(self.rules.threshold(tabulation)))`
would raise inside `threshold` (see `TabulatorRules.threshold`).  Only past
both failure points would the round loop run — that continuation is the
round-engine layer `tabulateSteps`/`tabulateInit`, with fuel `n` standing
for the number of loop iterations. -/
def Tabulator.tabulate (rules : TabulatorRules)
    (records : List (List String)) (n : Nat) : Except PyExc Tabulation :=
  match TabulatorRules.T rules with
  | Except.error e => Except.error e
  | Except.ok _ =>
    match TabulatorRules.threshold rules (tabulateStart records) with
    | Except.error e => Except.error e
    | Except.ok _ =>
        Except.ok (tabulateSteps rules n (tabulateInit rules records))

/-! ## The claims -/

/-- Claim C1 concerns executions the program cannot perform: on every input,
`Tabulator.tabulate` raises `NameError` at its first statement
`T = self.rules.T` — the shadowing `cached_property T` of `config.py`
evaluates the unbound name `arithmetic` — so the run aborts before the
threshold assignment and before any round.  No `TabulationRound` and no
`vote_threshold` is ever computed, recorded, or held fixed, for any rules,
any ballot records and any number of loop iterations. -/
theorem c1_no_threshold_ever_recorded (rules : TabulatorRules)
    (records : List (List String)) (n : Nat) :
    Tabulator.tabulate rules records n = Except.error PyExc.nameError := rfl

/-- Claim C2 asserts values of a computation that can never yield one: both
quota branches of `TabulatorRules.threshold` return
`self.arithmetic.div(...)`, and `DecimalArithmetic.div` raises before
returning — `DivisionByZero` when the divisor is zero, otherwise
`AttributeError` at the nonexistent `self.Context` — and has no `return`
statement in any case.  For every rules value and every tabulation state the
threshold computation ends in an exception, so it never equals `V / S`,
`V / (S + 1)`, or any rounding of either. -/
theorem c2_threshold_never_returns (rules : TabulatorRules)
    (t : Tabulation) :
    ∃ e, TabulatorRules.threshold rules t = Except.error e := by
  unfold TabulatorRules.threshold DecimalArithmetic.div
  dsimp only
  split
  · split
    · exact ⟨PyExc.divisionByZero, rfl⟩
    · exact ⟨PyExc.attributeError, rfl⟩
  · split
    · exact ⟨PyExc.divisionByZero, rfl⟩
    · exact ⟨PyExc.attributeError, rfl⟩

/-- Claim C3 (confirmed): in every recorded round of a run, the winner list
contains a candidate exactly when that candidate's recorded vote total
strictly exceeds the round's threshold (`vote_totals > vote_threshold` in
`TabulatorRules.select_winners`); a candidate whose total merely equals the
threshold is never selected, and nothing limits how many candidates satisfy
the strict inequality, so multiple simultaneous winners are permitted.
`totalLookup` reads `0` for a candidate absent from the tally. -/
theorem c3_winners_strictly_exceed (rules : TabulatorRules)
    (records : List (List String)) (n : Nat) (r : TabulationRound)
    (hr : r ∈ (tabulateSteps rules n (tabulateInit rules records)).rounds)
    (c : String) :
    c ∈ r.winners ↔ r.vote_threshold < totalLookup r.vote_totals c :=
  (tabInv_steps rules n (tabulateInit rules records)
    (tabInv_init rules records)).1.rounds_winchar r hr c

/-- Witness for `c3_winners_strictly_exceed` at a concrete run whose first
round elects `"A"` (total 2 strictly above threshold 1) and not `"B"`
(total 1, equal to the threshold). -/
theorem c3_witness :
    (exRoundD1 ∈ (tabulateSteps exRulesD 1
        (tabulateInit exRulesD exBallotsA)).rounds)
    ∧ ("A" ∈ exRoundD1.winners ↔
        exRoundD1.vote_threshold < totalLookup exRoundD1.vote_totals "A")
    ∧ ("B" ∈ exRoundD1.winners ↔
        exRoundD1.vote_threshold < totalLookup exRoundD1.vote_totals "B") :=
  ⟨by rw [exD_steps1]; exact List.mem_singleton.mpr rfl,
   c3_winners_strictly_exceed exRulesD exBallotsA 1 exRoundD1
     (by rw [exD_steps1]; exact List.mem_singleton.mpr rfl) "A",
   c3_winners_strictly_exceed exRulesD exBallotsA 1 exRoundD1
     (by rw [exD_steps1]; exact List.mem_singleton.mpr rfl) "B"⟩

/-- Claim C4 (amended): in a round with no winner, if `batch_elimination` is
enabled `select_losers` eliminates the first `m` tallied candidates in
ascending *key* order, where `m` is the length of the maximal prefix of the
*value-sorted* series whose cumulative total stays below the threshold —
the value-ordered boolean mask is applied positionally to the key-ordered
index, so in general the eliminated candidates are not the `m` lowest-total
ones.  Otherwise it eliminates exactly one candidate, the first entry of
the value-sorted series, whose total is minimal.  When several candidates
tie for lowest, the choice is made by the position in the sorted series
alone: the configured tiebreak mode and random seed are never consulted
(`select_losers` reads only `batch_elimination`). -/
theorem c4_loser_selection (rules : TabulatorRules)
    (records : List (List String)) (n : Nat) :
    let t := tabulateSteps rules n (tabulateInit rules records)
    let bs0 := roundSettled t
    (rules.batch_elimination = true →
      ∃ m, m ≤ (roundTotals bs0).length
        ∧ selectLosers rules (roundRec0 t)
            = ((roundTotals bs0).map Prod.fst).take m
        ∧ (0 < m →
            (((sortByVotes (roundTotals bs0)).take m).map Prod.snd).sum
              < t.threshold)
        ∧ (m < (roundTotals bs0).length →
            t.threshold ≤
              (((sortByVotes (roundTotals bs0)).take (m + 1)).map
                Prod.snd).sum))
    ∧ (rules.batch_elimination = false → tallyKeys bs0 ≠ [] →
        ∃ c, selectLosers rules (roundRec0 t) = [c]
          ∧ c ∈ tallyKeys bs0
          ∧ ∀ d ∈ tallyKeys bs0, tallyTotal bs0 c ≤ tallyTotal bs0 d)
    ∧ (∀ rules2 : TabulatorRules,
        rules2.batch_elimination = rules.batch_elimination →
        selectLosers rules2 (roundRec0 t) = selectLosers rules (roundRec0 t)) := by
  intro t bs0
  have hinv : TabInv t :=
    (tabInv_steps rules n (tabulateInit rules records)
      (tabInv_init rules records)).1
  refine ⟨?_, ?_, ?_⟩
  · intro hb
    have hnn : ∀ p ∈ (roundRec0 t).vote_totals, 0 ≤ p.2 := by
      intro p hp
      obtain ⟨_, hv⟩ := (mem_roundTotals bs0 p).mp hp
      rw [hv]
      exact tallyTotal_nonneg bs0 (roundSettled_nonneg t hinv) p.1
    obtain ⟨m, h1, h2, h3, h4⟩ :=
      selectLosers_batch rules (roundRec0 t) hb hnn
    exact ⟨m, h1, h2, h3, h4⟩
  · intro hb hne
    exact selectLosers_single rules (roundRec0 t) bs0 hb rfl hne
  · intro rules2 h2
    exact selectLosers_mode_free rules2 rules (roundRec0 t) h2

/-- Witness for `c4_loser_selection`, exercising the single-elimination
branch (batch off, run on `[["A"], ["B"]]`) and the batch branch. -/
theorem c4_witness :
    (∃ c, selectLosers exRulesA
        (roundRec0 (tabulateSteps exRulesA 0 (tabulateInit exRulesA exBallotsF)))
        = [c]
      ∧ c ∈ tallyKeys (roundSettled
          (tabulateSteps exRulesA 0 (tabulateInit exRulesA exBallotsF)))
      ∧ ∀ d ∈ tallyKeys (roundSettled
          (tabulateSteps exRulesA 0 (tabulateInit exRulesA exBallotsF))),
          tallyTotal (roundSettled
            (tabulateSteps exRulesA 0 (tabulateInit exRulesA exBallotsF))) c
            ≤ tallyTotal (roundSettled
                (tabulateSteps exRulesA 0 (tabulateInit exRulesA exBallotsF))) d)
    ∧ (∃ m, m ≤ (roundTotals (roundSettled
          (tabulateSteps exRulesF 0 (tabulateInit exRulesF exBallotsF)))).length
        ∧ selectLosers exRulesF
            (roundRec0 (tabulateSteps exRulesF 0 (tabulateInit exRulesF exBallotsF)))
            = ((roundTotals (roundSettled
                (tabulateSteps exRulesF 0 (tabulateInit exRulesF exBallotsF)))).map
                  Prod.fst).take m
        ∧ (0 < m →
            (((sortByVotes (roundTotals (roundSettled
              (tabulateSteps exRulesF 0 (tabulateInit exRulesF exBallotsF))))).take
                m).map Prod.snd).sum
              < (tabulateSteps exRulesF 0 (tabulateInit exRulesF exBallotsF)).threshold)
        ∧ (m < (roundTotals (roundSettled
            (tabulateSteps exRulesF 0 (tabulateInit exRulesF exBallotsF)))).length →
            (tabulateSteps exRulesF 0 (tabulateInit exRulesF exBallotsF)).threshold ≤
              (((sortByVotes (roundTotals (roundSettled
                (tabulateSteps exRulesF 0 (tabulateInit exRulesF exBallotsF))))).take
                  (m + 1)).map Prod.snd).sum)) :=
  ⟨(c4_loser_selection exRulesA exBallotsF 0).2.1 rfl
    (by rw [show tabulateSteps exRulesA 0 (tabulateInit exRulesA exBallotsF)
          = tabulateInit exRulesA exBallotsF from rfl, exAF_init]
        decide),
   (c4_loser_selection exRulesF exBallotsF 0).1 rfl⟩

/-- A round record with key-sorted totals `A = 5, B = 1, C = 2` and
threshold `4`, on which the positional masking of `select_losers` is
visible: the value-sorted cumulative mask is `[true, true, false]`
(`1 < 4`, `1 + 2 < 4`, `1 + 2 + 5 ≥ 4`). -/
def exRoundX : TabulationRound :=
  { round_number := 1, vote_threshold := 4,
    vote_totals := [("A", 5), ("B", 1), ("C", 2)], winners := [],
    losers := [] }

/-- Claim C4 fails as stated on both clauses.  Batch clause: on key-sorted
totals `A = 5, B = 1, C = 2` with threshold `4`, the code applies the
value-ordered mask `[true, true, false]` positionally to the key-ordered
index and eliminates `["A", "B"]` — `"A"` carries the *largest* total —
while the claimed lowest-total prefix (`selectLosersSpec`, the spec's
words) is `["B", "C"]`.  Tiebreak clause: on ballots `[["A"], ["B"]]` both
candidates tie for lowest with total `1`, and two configurations that
differ in tiebreak mode (`RANDOM` with seed 42 versus
`USE_CANDIDATE_ORDER` with no seed) eliminate the same candidate `"A"` —
no seeded draw and no mode-specific choice happens. -/
theorem c4_counterexample :
    selectLosers exRulesF exRoundX = ["A", "B"]
    ∧ selectLosersSpec exRulesF exRoundX = ["B", "C"]
    ∧ (["A", "B"] : List String) ≠ ["B", "C"]
    ∧ selectLosers exRulesT
        (roundRec0 (tabulateInit exRulesT exBallotsF)) = ["A"]
    ∧ selectLosers exRulesA
        (roundRec0 (tabulateInit exRulesA exBallotsF)) = ["A"]
    ∧ exRulesT.tiebreak_mode ≠ exRulesA.tiebreak_mode
    ∧ exRulesT.random_seed ≠ exRulesA.random_seed
    ∧ tallyTotal (roundSettled (tabulateInit exRulesT exBallotsF)) "A"
        = tallyTotal (roundSettled (tabulateInit exRulesT exBallotsF)) "B" := by
  have hsort : sortByVotes [("A", (5:ℚ)), ("B", 1), ("C", 2)]
      = [("B", 1), ("C", 2), ("A", 5)] := by decide
  refine ⟨?_, ?_, by decide, ?_, ?_, by decide, by decide, ?_⟩
  · unfold selectLosers
    rw [if_pos (by decide)]
    show maskSelect (List.map Prod.fst [("A", (5:ℚ)), ("B", 1), ("C", 2)])
      (cumMask 4 0 (sortByVotes [("A", (5:ℚ)), ("B", 1), ("C", 2)]))
      = ["A", "B"]
    rw [hsort, cumMask, cumMask, cumMask, cumMask,
      decide_eq_true (by norm_num : (0:ℚ) + 1 < 4),
      decide_eq_true (by norm_num : (0:ℚ) + 1 + 2 < 4),
      decide_eq_false (by norm_num : ¬((0:ℚ) + 1 + 2 + 5 < 4))]
    rfl
  · unfold selectLosersSpec
    rw [if_pos (by decide)]
    show cumSelect 4 0 (sortByVotes [("A", (5:ℚ)), ("B", 1), ("C", 2)])
      = ["B", "C"]
    rw [hsort, cumSelect, if_pos (by norm_num : (0:ℚ) + 1 < 4),
      cumSelect, if_pos (by norm_num : (0:ℚ) + 1 + 2 < 4),
      cumSelect, if_neg (by norm_num : ¬((0:ℚ) + 1 + 2 + 5 < 4)),
      cumSelect]
    rfl
  · rw [exT_init, exBF_hr0]
    decide
  · rw [exAF_init, exBF_hr0]
    decide
  · rw [exT_init]
    rw [show roundSettled
        { ballots := exBF, threshold := 1, winners := [], losers := [],
          rounds := [] } = exBF from by decide]
    rw [exF_totA, exF_totB]

/-- Claim C5 (amended): the keys of `BallotSet.tally_votes` are exactly the
current candidates of the non-exhausted ballots.  A still-contending
candidate whom no non-exhausted ballot currently ranks therefore does *not*
appear in the tally with weight 0 — it is absent altogether (pandas
`groupby` creates no empty groups). -/
theorem c5_tally_keys (bs : List BallotState) (c : String) :
    c ∈ tallyKeys bs ↔
      ∃ b ∈ bs, b.isExhausted = false ∧ b.curCandidate = c :=
  mem_tallyKeys bs c

/-- Claim C5 fails as stated: on ballots `[["A", "C"], ["B"]]`, candidate
`"C"` is ranked (second on the first ballot), is neither a winner nor a
loser, yet receives zero first-choice ballots and is absent from the first
tally's keys instead of appearing with weight 0. -/
theorem c5_counterexample :
    "C" ∉ tallyKeys ((tabulateInit exRulesA [["A", "C"], ["B"]]).ballots)
    ∧ tallyTotal ((tabulateInit exRulesA [["A", "C"], ["B"]]).ballots) "C" = 0
    ∧ "C" ∈ (((tabulateInit exRulesA [["A", "C"], ["B"]]).ballots).getD 0
        ⟨[], 0, 0⟩).choices
    ∧ "C" ∉ (tabulateInit exRulesA [["A", "C"], ["B"]]).winners
    ∧ "C" ∉ (tabulateInit exRulesA [["A", "C"], ["B"]]).losers := by
  refine ⟨by decide, ?_, by decide, by decide, by decide⟩
  rw [tallyTotal, show ((tabulateInit exRulesA [["A", "C"], ["B"]]).ballots).filter
      (fun b => !b.isExhausted && b.curCandidate == "C") = [] from by decide]
  rfl

/-- Claim C6's round loop is never reached: `Tabulator.tabulate` raises
`NameError` at its first statement (tabulate.py line 136), before the
`while` loop at line 147, so no run executes any round at all.  At the
claim's own stress input `[["A"], ["B"]]` (two candidates, one seat, batch
elimination) the program yields no tabulation for any number of loop
iterations: the run ends by an unhandled exception, not by electing
`number_of_winners` winners and not by the claimed `|roster|`-round safety
bound — which the loop's code does not contain (its only guard is
`len(tabulation.winners) < self.rules.number_of_winners`). -/
theorem c6_loop_unreachable (n : Nat) :
    Tabulator.tabulate exRulesF exBallotsF n = Except.error PyExc.nameError
    ∧ ∀ t : Tabulation,
        Tabulator.tabulate exRulesF exBallotsF n ≠ Except.ok t := by
  refine ⟨rfl, fun t h => ?_⟩
  rw [show Tabulator.tabulate exRulesF exBallotsF n
      = Except.error PyExc.nameError from rfl] at h
  exact Except.noConfusion h

/-- Claim C7 (confirmed): across an entire run, per ballot: the ranking never
changes, `vote_remaining` never increases (it is scaled only during
winner-surplus transfer by a factor in `[0, 1]`, and stays non-negative),
the rank pointer `_cur_rank_i` only advances and never rewinds, and once a
ballot is exhausted its whole state is frozen for the rest of the run. -/
theorem c7_ballot_monotone (rules : TabulatorRules)
    (records : List (List String)) (m n : Nat) (hmn : m ≤ n) :
    (tabulateSteps rules n (tabulateInit rules records)).ballots.length
      = (tabulateSteps rules m (tabulateInit rules records)).ballots.length
    ∧ ∀ i (hm : i < (tabulateSteps rules m
          (tabulateInit rules records)).ballots.length)
        (hn : i < (tabulateSteps rules n
          (tabulateInit rules records)).ballots.length),
      ((tabulateSteps rules n (tabulateInit rules records)).ballots[i].choices
        = (tabulateSteps rules m (tabulateInit rules records)).ballots[i].choices)
      ∧ (tabulateSteps rules m (tabulateInit rules records)).ballots[i].curRank
          ≤ (tabulateSteps rules n (tabulateInit rules records)).ballots[i].curRank
      ∧ 0 ≤ (tabulateSteps rules n
          (tabulateInit rules records)).ballots[i].voteRemaining
      ∧ (tabulateSteps rules n
          (tabulateInit rules records)).ballots[i].voteRemaining
          ≤ (tabulateSteps rules m
              (tabulateInit rules records)).ballots[i].voteRemaining
      ∧ ((tabulateSteps rules m
            (tabulateInit rules records)).ballots[i].isExhausted = true →
          (tabulateSteps rules n (tabulateInit rules records)).ballots[i]
            = (tabulateSteps rules m (tabulateInit rules records)).ballots[i]) := by
  obtain ⟨hinvm, _, _⟩ :=
    tabInv_steps rules m (tabulateInit rules records)
      (tabInv_init rules records)
  have hcomp : tabulateSteps rules n (tabulateInit rules records)
      = tabulateSteps rules (n - m)
          (tabulateSteps rules m (tabulateInit rules records)) := by
    rw [← tabulateSteps_add, Nat.add_sub_cancel' hmn]
  obtain ⟨_, hmono, _⟩ :=
    tabInv_steps rules (n - m)
      (tabulateSteps rules m (tabulateInit rules records)) hinvm
  rw [hcomp]
  refine ⟨hmono.1, fun i hm2 hn2 => ?_⟩
  have hb := hmono.2 i hm2 hn2
  have hw0 := hinvm.weights_nonneg _ (List.getElem_mem hm2)
  obtain ⟨hch, hrk, hwt, hex⟩ := hb
  exact ⟨hch, hrk, (hwt hw0).1, (hwt hw0).2, hex⟩

/-- Witness for `c7_ballot_monotone` between the initial state and the state
after one round of the concrete run on `[["A"], ["A"], ["B"]]`. -/
theorem c7_witness : (0 ≤ 1)
    ∧ ((tabulateSteps exRulesA 1 (tabulateInit exRulesA exBallotsA)).ballots.length
      = (tabulateSteps exRulesA 0 (tabulateInit exRulesA exBallotsA)).ballots.length
    ∧ ∀ i (hm : i < (tabulateSteps exRulesA 0
          (tabulateInit exRulesA exBallotsA)).ballots.length)
        (hn : i < (tabulateSteps exRulesA 1
          (tabulateInit exRulesA exBallotsA)).ballots.length),
      ((tabulateSteps exRulesA 1 (tabulateInit exRulesA exBallotsA)).ballots[i].choices
        = (tabulateSteps exRulesA 0 (tabulateInit exRulesA exBallotsA)).ballots[i].choices)
      ∧ (tabulateSteps exRulesA 0 (tabulateInit exRulesA exBallotsA)).ballots[i].curRank
          ≤ (tabulateSteps exRulesA 1 (tabulateInit exRulesA exBallotsA)).ballots[i].curRank
      ∧ 0 ≤ (tabulateSteps exRulesA 1
          (tabulateInit exRulesA exBallotsA)).ballots[i].voteRemaining
      ∧ (tabulateSteps exRulesA 1
          (tabulateInit exRulesA exBallotsA)).ballots[i].voteRemaining
          ≤ (tabulateSteps exRulesA 0
              (tabulateInit exRulesA exBallotsA)).ballots[i].voteRemaining
      ∧ ((tabulateSteps exRulesA 0
            (tabulateInit exRulesA exBallotsA)).ballots[i].isExhausted = true →
          (tabulateSteps exRulesA 1 (tabulateInit exRulesA exBallotsA)).ballots[i]
            = (tabulateSteps exRulesA 0 (tabulateInit exRulesA exBallotsA)).ballots[i])) :=
  ⟨by decide, c7_ballot_monotone exRulesA exBallotsA 0 1 (by decide)⟩

/-- Claim C8 (confirmed): at every round boundary of a run the cumulative
winner and loser lists are disjoint, and every recorded round has winners
or losers but never both non-empty (`tabulate_round` assigns `losers` only
in the branch where `select_winners` returned the empty list). -/
theorem c8_disjointness (rules : TabulatorRules)
    (records : List (List String)) (n : Nat) :
    (∀ c, c ∈ (tabulateSteps rules n (tabulateInit rules records)).winners →
      c ∈ (tabulateSteps rules n (tabulateInit rules records)).losers → False)
    ∧ ∀ r ∈ (tabulateSteps rules n (tabulateInit rules records)).rounds,
        r.winners = [] ∨ r.losers = [] :=
  ⟨(tabInv_steps rules n (tabulateInit rules records)
      (tabInv_init rules records)).1.disj,
   (tabInv_steps rules n (tabulateInit rules records)
      (tabInv_init rules records)).1.rounds_excl⟩

/-- Claim C9 (confirmed): for the round executed from any reachable run state,
the conserved system total (tallied continuing votes plus the weight still
carried by exhausted ballots) decreases by exactly `threshold` for each
winner selected in that round — the surplus scaling removes precisely the
retained threshold portion per winner — and never increases; loser rounds
transfer full weights and leave the total unchanged. -/
theorem c9_conservation (rules : TabulatorRules)
    (records : List (List String)) (n : Nat) :
    ∃ r, (tabulateRound rules
        (tabulateSteps rules n (tabulateInit rules records))).rounds
        = (tabulateSteps rules n (tabulateInit rules records)).rounds ++ [r]
      ∧ systemTotal (tabulateRound rules
          (tabulateSteps rules n (tabulateInit rules records))).ballots
          + (tabulateSteps rules n
              (tabulateInit rules records)).threshold * r.winners.length
        = systemTotal (tabulateSteps rules n
            (tabulateInit rules records)).ballots
      ∧ systemTotal (tabulateRound rules
          (tabulateSteps rules n (tabulateInit rules records))).ballots
        ≤ systemTotal (tabulateSteps rules n
            (tabulateInit rules records)).ballots := by
  have hinv : TabInv (tabulateSteps rules n (tabulateInit rules records)) :=
    (tabInv_steps rules n (tabulateInit rules records)
      (tabInv_init rules records)).1
  obtain ⟨r, h1, h2⟩ :=
    tabulateRound_conservation rules
      (tabulateSteps rules n (tabulateInit rules records)) hinv
  refine ⟨r, h1, ?_, ?_⟩
  · rw [systemTotal_eq_totalWeight, systemTotal_eq_totalWeight, h2]
    ring
  · rw [systemTotal_eq_totalWeight, systemTotal_eq_totalWeight, h2]
    have hge : 0 ≤ (tabulateSteps rules n
        (tabulateInit rules records)).threshold * r.winners.length :=
      mul_nonneg hinv.thr_nonneg (by positivity)
    linarith

/-- Claim C10 (confirmed): a selected winner's recorded total strictly exceeds
the round threshold, so under the precondition that the threshold is
non-negative (which holds throughout a run) the total is strictly positive
and the divisor of `excess_vote_ratio = (total − threshold) / total` in the
winner branch of `tabulate_round` is never zero. -/
theorem c10_division_safe (rules : TabulatorRules)
    (records : List (List String)) (n : Nat) (w : String)
    (hw : w ∈ selectWinners (roundRec0
      (tabulateSteps rules n (tabulateInit rules records)))) :
    0 < totalLookup (roundRec0
        (tabulateSteps rules n (tabulateInit rules records))).vote_totals w
    ∧ totalLookup (roundRec0
        (tabulateSteps rules n (tabulateInit rules records))).vote_totals w
      ≠ 0 := by
  have hinv : TabInv (tabulateSteps rules n (tabulateInit rules records)) :=
    (tabInv_steps rules n (tabulateInit rules records)
      (tabInv_init rules records)).1
  obtain ⟨hk, hlt, hpos, hlook⟩ :=
    selectWinners_facts (tabulateSteps rules n (tabulateInit rules records))
      hinv w hw
  have hlook2 : totalLookup (roundRec0
      (tabulateSteps rules n (tabulateInit rules records))).vote_totals w
      = tallyTotal (roundSettled
          (tabulateSteps rules n (tabulateInit rules records))) w := hlook
  rw [hlook2]
  exact ⟨hpos, ne_of_gt hpos⟩

/-- Witness for `c10_division_safe`: in the two-seat run on
`[["A"], ["A"], ["B"]]`, candidate `"A"` is selected in round one and its
recorded total `2` is positive. -/
theorem c10_witness :
    "A" ∈ selectWinners (roundRec0
      (tabulateSteps exRulesD 0 (tabulateInit exRulesD exBallotsA)))
    ∧ 0 < totalLookup (roundRec0
        (tabulateSteps exRulesD 0 (tabulateInit exRulesD exBallotsA))).vote_totals "A"
    ∧ totalLookup (roundRec0
        (tabulateSteps exRulesD 0 (tabulateInit exRulesD exBallotsA))).vote_totals "A"
      ≠ 0 := by
  have hmem : "A" ∈ selectWinners (roundRec0
      (tabulateSteps exRulesD 0 (tabulateInit exRulesD exBallotsA))) := by
    rw [show tabulateSteps exRulesD 0 (tabulateInit exRulesD exBallotsA)
        = tabulateInit exRulesD exBallotsA from rfl, exD_init, exD_hr0]
    decide
  obtain ⟨h1, h2⟩ := c10_division_safe exRulesD exBallotsA 0 "A" hmem
  exact ⟨hmem, h1, h2⟩
